import Mathlib

/-!
Verification of the SmartRoute transit-routing core (`app/services/graph_service.py`,
`app/services/route_enhancer.py`, `app/services/route_optimizer.py`) against its
natural-language specification.

The Python code is shallowly embedded:
* Python `int` values become `Int`, Python `float` values become `Flt`, an exact
  unnormalised fraction type whose operations are plain integer arithmetic (so that
  the kernel can evaluate them); `Flt.toRat` maps a value to the rational it denotes.
  The float values actually produced by the program (halves, tenths, small sums and
  products of such) are exactly representable, so exact fractions are a faithful model.
* Python `float('inf')` results are modelled with `Option` (`none` = infinity).
* The geodesic great-circle distance of the `geopy` library is an abstract parameter
  `dist : (Flt × Flt) → (Flt × Flt) → Flt` of every function that measures distances.
* Fallible code (a `KeyError` on a dangling connection target) returns an error value.
* The `while` loops of the search are written with explicit fuel; running out of fuel
  is a distinguished outcome (`DRes.fuelOut`) and never conflated with a returned value.
-/

/-- Exact model of the Python float values manipulated by the program: an integer
numerator and a positive denominator (`den = dpred + 1`), kept unnormalised so that
all operations are plain integer arithmetic the kernel can reduce. -/
structure Flt where
  num : Int
  dpred : Nat
deriving DecidableEq, Repr

namespace Flt

/-- Denominator of a `Flt`; positive by construction. -/
def den (x : Flt) : Nat := x.dpred + 1

/-- Build a `Flt` with the given denominator (expected positive). -/
def mkD (n : Int) (d : Nat) : Flt := ⟨n, d - 1⟩

/-- Embed an integer. -/
def ofInt (n : Int) : Flt := ⟨n, 0⟩

/-- The rational number a `Flt` denotes. -/
def toRat (x : Flt) : ℚ := (x.num : ℚ) / (x.den : ℚ)

/-- Addition. -/
def add (x y : Flt) : Flt := ⟨x.num * y.den + y.num * x.den, x.den * y.den - 1⟩

/-- Multiplication. -/
def mul (x y : Flt) : Flt := ⟨x.num * y.num, x.den * y.den - 1⟩

/-- Division; division by (a representation of) zero yields the junk value 0,
which the embedded code never relies on (the sources divide only by positive
configuration constants). -/
def div (x y : Flt) : Flt :=
  if y.num = 0 then ⟨0, 0⟩
  else ⟨x.num * y.den * Int.sign y.num, x.den * y.num.natAbs - 1⟩

/-- Numeric strict comparison, as Python `<` compares floats. -/
def blt (x y : Flt) : Bool := x.num * y.den < y.num * x.den

/-- Numeric non-strict comparison, as Python `<=`. -/
def ble (x y : Flt) : Bool := x.num * y.den ≤ y.num * x.den

/-- Numeric equality, as Python `==` on floats (distinct representations of the
same value are equal). -/
def beqv (x y : Flt) : Bool := x.num * y.den = y.num * x.den

/-- Python `int()` applied to a float: truncation toward zero; `Int.tdiv` is exactly
T-division. -/
def pyInt (x : Flt) : Int := Int.tdiv x.num x.den

/-- Python `max(0, x)` on floats. -/
def max0 (x : Flt) : Flt := if blt x (ofInt 0) then ofInt 0 else x

end Flt

/-! ## Data model (`app/models/stop.py`, `app/models/route.py`, `app/config.py`) -/

/-- GeoJSON point of a stop: `coords = (longitude, latitude)`, mirroring
`location.coordinates = [lon, lat]` in the source. -/
structure Location where
  coords : Flt × Flt
deriving DecidableEq, Repr

/-- A directed connection edge (`app/models/stop.py::Connection`). -/
structure Conn where
  to_stop_id : String
  route_id : String
  time : Int
  cost : Flt
  sequence : Int
deriving DecidableEq, Repr

/-- A stop (`app/models/stop.py::Stop`); the Mongo `_id` field is irrelevant to the
algorithms and omitted. -/
structure Stop where
  stop_id : String
  name : String
  location : Location
  connections : List Conn
deriving DecidableEq, Repr

/-- A route document as held in `routes_cache` (`app/models/route.py::Route`;
the cache stores raw dicts with these fields). -/
structure RouteInfo where
  route_id : String
  route_long_name : String
  route_type : String
  stops : List String
deriving DecidableEq, Repr

/-- A walking direction (`app/models/route.py::WalkingDirection`). -/
structure WalkingDirection where
  instruction : String
  distance_meters : Int
  duration_seconds : Int
deriving DecidableEq, Repr

/-- One traversed edge of a result (`app/models/route.py::RouteSegment`). -/
structure RouteSegment where
  route_id : String
  route_name : String
  route_type : String
  from_stop : String
  to_stop : String
  from_stop_name : String
  to_stop_name : String
  time : Int
  cost : Flt
  sequence_start : Int
  sequence_end : Int
  boarding_time : Int
  transfer_time : Int
  walking_directions : List WalkingDirection
deriving DecidableEq, Repr

/-- An itinerary (`app/models/route.py::OptimizedRoute`). The fields that can hold
Python `float('inf')` through `+=` with a walking time (`total_time`, `walking_time`,
`start_walking_time`, `end_walking_time`, `calories_burned`) are `Option Int`
(`none` = infinity). -/
structure OptimizedRoute where
  path : List String
  segments : List RouteSegment
  total_time : Option Int
  total_cost : Flt
  transfers : Int
  walking_time : Option Int
  total_distance_km : Flt
  start_walking_time : Option Int
  end_walking_time : Option Int
  route_summary : String
  alternative_routes_count : Int
  co2_saved_kg : Flt
  calories_burned : Option Int
deriving DecidableEq, Repr

/-- The in-memory snapshot held by `GraphService`: `stops_cache` and `routes_cache`
as association lists keyed by identifier, in dict insertion order.  The same
`routes_cache` list stands for the `db.routes` collection read by
`_find_route_serving_both_stops` (the cache is loaded wholesale from it). -/
structure GraphService where
  stops_cache : List (String × Stop)
  routes_cache : List (String × RouteInfo)
deriving DecidableEq, Repr

/-- Geodesic distance function (abstract stand-in for `geopy.distance.geodesic(...)
.kilometers`); arguments are `(lat, lon)` pairs. -/
def DistFn : Type := (Flt × Flt) → (Flt × Flt) → Flt

namespace Settings

/-- `WALKING_SPEED_KMH = 5.0`. -/
def WALKING_SPEED_KMH : Flt := Flt.ofInt 5

/-- `MAX_WALKING_DISTANCE_KM = 0.5`. -/
def MAX_WALKING_DISTANCE_KM : Flt := Flt.mkD 1 2

/-- `MAX_SEARCH_RADIUS_KM = 50.0`. -/
def MAX_SEARCH_RADIUS_KM : Flt := Flt.ofInt 50

/-- `BUS_BOARDING_TIME = 2`. -/
def BUS_BOARDING_TIME : Int := 2

/-- `METRO_BOARDING_TIME = 1`. -/
def METRO_BOARDING_TIME : Int := 1

/-- `TRANSFER_WALKING_TIME = 3`. -/
def TRANSFER_WALKING_TIME : Int := 3

end Settings

namespace GraphService

/-- `route_type` of a cached route, default `"bus"` (`routes_cache.get(route_id, {})
.get("route_type", "bus")`). -/
def routeTypeOf (gs : GraphService) (route_id : String) : String :=
  match gs.routes_cache.lookup route_id with
  | some ri => ri.route_type
  | none => "bus"

/-- `route_long_name` of a cached route, default `f"Route {route_id}"`. -/
def routeLongNameOf (gs : GraphService) (route_id : String) : String :=
  match gs.routes_cache.lookup route_id with
  | some ri => ri.route_long_name
  | none => "Route " ++ route_id

/-- `get_mode_specific_penalties` (graph_service.py lines 133-141): returns
`(boarding_time, transfer_walking_time)`. -/
def get_mode_specific_penalties (gs : GraphService) (route_id : String) : Int × Int :=
  if gs.routeTypeOf route_id = "metro" then
    (Settings.METRO_BOARDING_TIME, Settings.TRANSFER_WALKING_TIME)
  else
    (Settings.BUS_BOARDING_TIME, Settings.TRANSFER_WALKING_TIME)

/-- `get_stop_coordinates` (lines 48-53): `(lat, lon)` for a cached stop, or the
`(None, None)` sentinel — modelled as `none` — for an unknown stop. -/
def get_stop_coordinates (gs : GraphService) (stop_id : String) : Option (Flt × Flt) :=
  (gs.stops_cache.lookup stop_id).map
    (fun st => (st.location.coords.2, st.location.coords.1))

/-- `calculate_walking_time_from_coords` (lines 76-89).  The guard
`if not stop_coords:` in the source never fires: `get_stop_coordinates` returns the
2-tuple `(None, None)` for an unknown stop, and a non-empty tuple is truthy in
Python.  `geopy` then coerces the `None` coordinates to `0.0` (its point
normalisation computes `float(latitude or 0.0)`), so an unknown stop is measured as
if located at latitude 0, longitude 0.  Returns `(minutes, distance_km)` with
`none` minutes standing for `float('inf')`. -/
def calculate_walking_time_from_coords (gs : GraphService) (dist : DistFn)
    (lat lon : Flt) (stop_id : String) : Option Int × Flt :=
  let p := match gs.get_stop_coordinates stop_id with
    | some c => c
    | none => (Flt.ofInt 0, Flt.ofInt 0)
  let distance_km := dist (lat, lon) p
  if Flt.blt Settings.MAX_WALKING_DISTANCE_KM distance_km then
    (none, distance_km)
  else
    (some (Flt.pyInt (Flt.mul (Flt.div distance_km Settings.WALKING_SPEED_KMH)
      (Flt.ofInt 60))), distance_km)

/-- `validate_coordinates` (lines 55-74): coordinate ranges, and if the cache is
non-empty, minimum geodesic distance to any stop at most `MAX_SEARCH_RADIUS_KM`. -/
def validate_coordinates (gs : GraphService) (dist : DistFn)
    (latitude longitude : Flt) : Bool :=
  if ¬ (Flt.ble (Flt.ofInt (-90)) latitude && Flt.ble latitude (Flt.ofInt 90) &&
        Flt.ble (Flt.ofInt (-180)) longitude && Flt.ble longitude (Flt.ofInt 180)) then
    false
  else match gs.stops_cache with
    | [] => true
    | s₀ :: rest =>
      let d₀ := dist (latitude, longitude)
        (s₀.2.location.coords.2, s₀.2.location.coords.1)
      let min_distance := rest.foldl
        (fun m p =>
          let d := dist (latitude, longitude) (p.2.location.coords.2, p.2.location.coords.1)
          if Flt.blt d m then d else m) d₀
      Flt.ble min_distance Settings.MAX_SEARCH_RADIUS_KM

end GraphService

/-! Python string comparison (by code point), used by `list.sort()` on
`(distance, stop_id, name)` tuples in `find_nearest_stops`. -/

/-- Lexicographic strict comparison of character lists, as Python compares `str`. -/
def charListLt : List Char → List Char → Bool
  | [], [] => false
  | [], _ :: _ => true
  | _ :: _, [] => false
  | a :: as, b :: bs => if a < b then true else if b < a then false else charListLt as bs

/-- Python `<=` on the sort keys `(distance, stop_id, name)`:
tuple comparison is lexicographic, floats numerically, strings by code point. -/
def tupLeB (a b : Flt × String × String) : Bool :=
  Flt.blt a.1 b.1 ||
    (Flt.beqv a.1 b.1 &&
      (charListLt a.2.1.data b.2.1.data ||
        (a.2.1 == b.2.1 &&
          (charListLt a.2.2.data b.2.2.data || a.2.2 == b.2.2))))

/-- The propositional order used for sorting the distance tuples. -/
def TupLe (a b : Flt × String × String) : Prop := tupLeB a b = true

instance : DecidableRel TupLe := fun a b => by
  unfold TupLe
  infer_instance

namespace GraphService

/-- `find_nearest_stops` (lines 107-131): distance tuples `(distance, stop_id,
name)` for every cached stop within `MAX_WALKING_DISTANCE_KM`, Python
`list.sort()` (insertion sort is extensionally the same sort: the keys carry the
stop id, which is unique among dict entries, so the sorted permutation is unique),
then the first `limit` entries as `(stop_id, distance)` pairs. -/
def find_nearest_stops (gs : GraphService) (dist : DistFn)
    (latitude longitude : Flt) (limit : Nat) : List (String × Flt) :=
  let distances := gs.stops_cache.filterMap (fun p =>
    let d := dist (latitude, longitude)
      (p.2.location.coords.2, p.2.location.coords.1)
    if Flt.ble d Settings.MAX_WALKING_DISTANCE_KM then some (d, p.1, p.2.name)
    else none)
  let sorted := List.insertionSort TupLe distances
  (sorted.take limit).map (fun t => (t.2.1, t.1))

end GraphService

/-! ## Pathfinder (`graph_service.py::_dijkstra_pathfinding` and callers) -/

/-- A priority-queue element: the tuple
`(cost, counter, current_stop, path, segments, transfers, total_time, total_cost)`
pushed on the heap (line 291 / 395-398). -/
structure Entry where
  cost : Flt
  counter : Nat
  stop : String
  path : List String
  segments : List RouteSegment
  transfers : Int
  total_time : Int
  total_cost : Flt
deriving DecidableEq, Repr

/-- Outcome of a search call: `fuelOut` (the modelling fuel ran out, no Python
counterpart), `err` (an uncaught `KeyError` escapes), `noRoute` (the function
returns `None`), `found r` (the function returns itinerary `r`). -/
inductive DRes where
  | fuelOut
  | err
  | noRoute
  | found (r : OptimizedRoute)
deriving DecidableEq, Repr

/-- Heap order on entries: Python compares the tuples lexicographically, i.e. by
priority (numerically, as floats) and then by the monotone counter; counters are
unique within a run so later components are never reached. -/
def entryLe (a b : Entry) : Bool :=
  Flt.blt a.cost b.cost || (Flt.beqv a.cost b.cost && Nat.ble a.counter b.counter)

/-- Pop the minimum of the heap (`heapq.heappop`), returning it together with the
remaining elements. -/
def popMin : List Entry → Option (Entry × List Entry)
  | [] => none
  | e :: es =>
    match popMin es with
    | none => some (e, [])
    | some (m, rest) => if entryLe e m then some (e, es) else some (m, e :: rest)

/-- Priority of a new state by objective (lines 359-365). -/
def priorityOf (optimize_for : String) (new_time : Int) (new_cost : Flt)
    (new_transfers : Int) : Flt :=
  if optimize_for = "time" then Flt.ofInt new_time
  else if optimize_for = "cost" then new_cost
  else Flt.ofInt (new_transfers * 100 + new_time)

/-- Mutable state threaded through one expansion: the queue, `best_costs`
(updates are modelled by prepending, so `lookup` sees the newest binding, exactly
like a dict write), and the `itertools.count()` counter. -/
structure ExpSt where
  pq : List Entry
  best : List (String × Flt)
  ctr : Nat
deriving DecidableEq, Repr

/-- Default-carrying `route_type` lookup (`routes_cache.get(rid, {})
.get("route_type", dflt)`; `_create_route_from_connection` and
`_create_route_from_data` default to `"metro"`, the search segments to `"bus"`). -/
def GraphService.routeTypeOfD (gs : GraphService) (route_id dflt : String) : String :=
  match gs.routes_cache.lookup route_id with
  | some ri => ri.route_type
  | none => dflt

/-- The boarding penalty `stepConn` computes for extending entry `e` with
connection `c` (the `boarding_penalty` local of lines 342-353). -/
def boardingPenaltyOf (gs : GraphService) (e : Entry) (c : Conn) : Int :=
  let pens := gs.get_mode_specific_penalties c.route_id
  match e.segments.getLast? with
  | none => pens.1
  | some lastSeg => if lastSeg.route_id ≠ c.route_id then pens.1 + pens.2 else 0

/-- The `is_transfer` local of lines 343-353. -/
def transferFlagOf (e : Entry) (c : Conn) : Bool :=
  match e.segments.getLast? with
  | none => false
  | some lastSeg => lastSeg.route_id ≠ c.route_id

/-- The `new_time` local of line 355. -/
def newTimeOf (gs : GraphService) (e : Entry) (c : Conn) : Int :=
  e.total_time + c.time + boardingPenaltyOf gs e c

/-- The `new_transfers` local of line 357. -/
def newTransfersOf (e : Entry) (c : Conn) : Int :=
  e.transfers + (if transferFlagOf e c then 1 else 0)

/-- The `new_cost` local of line 356. -/
def newCostOf (e : Entry) (c : Conn) : Flt := Flt.add e.total_cost c.cost

/-- The `priority` local of lines 359-365. -/
def prioOf (gs : GraphService) (optimize_for : String) (e : Entry) (c : Conn) : Flt :=
  priorityOf optimize_for (newTimeOf gs e c) (newCostOf e c) (newTransfersOf e c)

/-- One iteration of the `for connection in current_stop_obj.connections` body
(lines 330-398), for popped entry `e` whose stop has display name `curName`.
`none` models the `KeyError` raised at line 369
(`self.stops_cache[next_stop].name`) when a connection target is not cached. -/
def stepConn (gs : GraphService) (optimize_for : String) (e : Entry)
    (curName : String) (st : ExpSt) (c : Conn) : Option ExpSt :=
  if c.to_stop_id ∈ e.path then some st
  else
    let boarding_penalty : Int := boardingPenaltyOf gs e c
    let new_time := newTimeOf gs e c
    let new_cost := newCostOf e c
    let new_transfers := newTransfersOf e c
    let priority := prioOf gs optimize_for e c
    match gs.stops_cache.lookup c.to_stop_id with
    | none => none
    | some nextStop =>
      let seg : RouteSegment :=
        { route_id := c.route_id
          route_name := gs.routeLongNameOf c.route_id
          route_type := gs.routeTypeOfD c.route_id "bus"
          from_stop := e.stop
          to_stop := c.to_stop_id
          from_stop_name := curName
          to_stop_name := nextStop.name
          time := c.time
          cost := c.cost
          sequence_start := c.sequence
          sequence_end := c.sequence + 1
          boarding_time := boarding_penalty
          transfer_time := 0
          walking_directions := [] }
      let push : Bool :=
        match st.best.lookup c.to_stop_id with
        | none => true
        | some b => Flt.blt priority b
      if push then
        some ⟨st.pq ++
          [{ cost := priority, counter := st.ctr, stop := c.to_stop_id,
             path := e.path ++ [c.to_stop_id], segments := e.segments ++ [seg],
             transfers := new_transfers, total_time := new_time,
             total_cost := new_cost }],
          (c.to_stop_id, priority) :: st.best, st.ctr + 1⟩
      else some st

/-- Fold `stepConn` over the connection list of the popped stop. -/
def expandConns (gs : GraphService) (optimize_for : String) (e : Entry)
    (curName : String) : List Conn → ExpSt → Option ExpSt
  | [], st => some st
  | c :: cs, st =>
    match stepConn gs optimize_for e curName st c with
    | none => none
    | some st' => expandConns gs optimize_for e curName cs st'

/-- The `OptimizedRoute` built when the destination is popped (lines 306-320). -/
def routeOfEntry (e : Entry) : OptimizedRoute :=
  { path := e.path
    segments := e.segments
    total_time := some e.total_time
    total_cost := e.total_cost
    transfers := e.transfers
    walking_time := some 0
    total_distance_km := Flt.ofInt 0
    start_walking_time := some 0
    end_walking_time := some 0
    route_summary := "Route with " ++ toString e.segments.length ++ " segments, "
      ++ toString e.transfers ++ " transfers"
    alternative_routes_count := 0
    co2_saved_kg := Flt.mul (Flt.ofInt e.total_time) (Flt.mkD 1 10)
    calories_burned := some 0 }

/-- The `while pq:` loop of `_dijkstra_pathfinding` (lines 295-401), with fuel. -/
def dloop (gs : GraphService) (end_stop_id optimize_for : String)
    (max_transfers : Int) :
    Nat → List Entry → List (String × Flt) → Nat → DRes
  | 0, _, _, _ => DRes.fuelOut
  | fuel + 1, pq, best, ctr =>
    match popMin pq with
    | none => DRes.noRoute
    | some (e, rest) =>
      if (match best.lookup e.stop with
          | some b => Flt.blt b e.cost
          | none => false) then
        dloop gs end_stop_id optimize_for max_transfers fuel rest best ctr
      else if e.stop = end_stop_id then DRes.found (routeOfEntry e)
      else if max_transfers ≤ e.transfers then
        dloop gs end_stop_id optimize_for max_transfers fuel rest best ctr
      else
        match gs.stops_cache.lookup e.stop with
        | none => dloop gs end_stop_id optimize_for max_transfers fuel rest best ctr
        | some stObj =>
          match expandConns gs optimize_for e stObj.name stObj.connections
              ⟨rest, best, ctr⟩ with
          | none => DRes.err
          | some st =>
            dloop gs end_stop_id optimize_for max_transfers fuel st.pq st.best st.ctr

/-- `_dijkstra_pathfinding` (lines 277-401): seeds the queue with
`(0, next(counter), start, [start], [], 0, 0, 0.0)` and `best_costs = {start: 0}`. -/
def dijkstra_pathfinding (gs : GraphService)
    (start_stop_id end_stop_id optimize_for : String)
    (max_transfers : Int) (fuel : Nat) : DRes :=
  dloop gs end_stop_id optimize_for max_transfers fuel
    [{ cost := Flt.ofInt 0, counter := 0, stop := start_stop_id,
       path := [start_stop_id], segments := [], transfers := 0, total_time := 0,
       total_cost := Flt.ofInt 0 }]
    [(start_stop_id, Flt.ofInt 0)] 1

/-- `_create_route_from_connection` (lines 403-442); note the `route_type`
default is `"metro"` here. -/
def create_route_from_connection (gs : GraphService) (c : Conn)
    (start_stop end_stop : Stop) : OptimizedRoute :=
  let route_name := gs.routeLongNameOf c.route_id
  let route_type := gs.routeTypeOfD c.route_id "metro"
  let boarding := (gs.get_mode_specific_penalties c.route_id).1
  let seg : RouteSegment :=
    { route_id := c.route_id
      route_name := route_name
      route_type := route_type
      from_stop := start_stop.stop_id
      to_stop := end_stop.stop_id
      from_stop_name := start_stop.name
      to_stop_name := end_stop.name
      time := c.time
      cost := c.cost
      sequence_start := 1
      sequence_end := 2
      boarding_time := boarding
      transfer_time := 0
      walking_directions := [] }
  { path := [start_stop.stop_id, end_stop.stop_id]
    segments := [seg]
    total_time := some (c.time + boarding)
    total_cost := c.cost
    transfers := 0
    walking_time := some 0
    total_distance_km := Flt.ofInt 0
    start_walking_time := some 0
    end_walking_time := some 0
    route_summary := "Take " ++ route_type ++ " " ++ c.route_id ++ " direct"
    alternative_routes_count := 0
    co2_saved_kg := Flt.ofInt 0
    calories_burned := some 0 }

/-- `_create_route_from_data` (lines 476-520).  The Python body re-reads the two
stops from `stops_cache`; every call site is dominated by the membership check at
the top of `_dijkstra_with_transfers`, so the looked-up stops are passed in. -/
def create_route_from_data (gs : GraphService) (route_id : String)
    (doc : RouteInfo) (ss es : Stop) (travel_time : Int) (travel_cost : Flt)
    (stops_between : Int) : OptimizedRoute :=
  let route_name := doc.route_long_name
  let route_type := doc.route_type
  let boarding := (gs.get_mode_specific_penalties route_id).1
  let seg : RouteSegment :=
    { route_id := route_id
      route_name := route_name
      route_type := route_type
      from_stop := ss.stop_id
      to_stop := es.stop_id
      from_stop_name := ss.name
      to_stop_name := es.name
      time := travel_time
      cost := travel_cost
      sequence_start := 1
      sequence_end := stops_between + 1
      boarding_time := boarding
      transfer_time := 0
      walking_directions := [] }
  { path := [ss.stop_id, es.stop_id]
    segments := [seg]
    total_time := some (travel_time + boarding)
    total_cost := travel_cost
    transfers := 0
    walking_time := some 0
    total_distance_km := Flt.ofInt 0
    start_walking_time := some 0
    end_walking_time := some 0
    route_summary := "Take " ++ route_type ++ " " ++ route_name ++ " for "
      ++ toString stops_between ++ " stops"
    alternative_routes_count := 0
    co2_saved_kg := Flt.mkD 5 2
    calories_burned := some 0 }

/-- `_find_route_serving_both_stops` (lines 444-474): first route document whose
stop list contains both identifiers (the `$all` match with `$limit: 1`), then the
fixed 3-minutes / 2.0-cost per intermediate stop estimate.  `.index` cannot raise
because the match guarantees membership. -/
def find_route_serving_both_stops (gs : GraphService) (ss es : Stop)
    (start_stop_id end_stop_id : String) : Option OptimizedRoute :=
  match gs.routes_cache.find?
      (fun p => p.2.stops.contains start_stop_id && p.2.stops.contains end_stop_id) with
  | none => none
  | some (rid, doc) =>
    let start_idx : Int := (doc.stops.indexOf start_stop_id : Nat)
    let end_idx : Int := (doc.stops.indexOf end_stop_id : Nat)
    let stops_between : Int := ((end_idx - start_idx).natAbs : Nat)
    some (create_route_from_data gs rid doc ss es (stops_between * 3)
      (Flt.ofInt (stops_between * 2)) stops_between)

/-- The zero itinerary returned for a same-stop query (lines 237-252). -/
def sameStopRoute (start_stop_id : String) : OptimizedRoute :=
  { path := [start_stop_id]
    segments := []
    total_time := some 0
    total_cost := Flt.ofInt 0
    transfers := 0
    walking_time := some 0
    total_distance_km := Flt.ofInt 0
    start_walking_time := some 0
    end_walking_time := some 0
    route_summary := "Already at destination"
    alternative_routes_count := 0
    co2_saved_kg := Flt.ofInt 0
    calories_burned := some 0 }

/-- `_dijkstra_with_transfers` (lines 224-275): unknown endpoint → `None`;
same stop → zero itinerary; direct connection → one-segment itinerary; shared
route → estimated itinerary; otherwise the full search; `None` when that fails. -/
def dijkstra_with_transfers (gs : GraphService)
    (start_stop_id end_stop_id optimize_for : String) (fuel : Nat) : DRes :=
  match gs.stops_cache.lookup start_stop_id, gs.stops_cache.lookup end_stop_id with
  | some ss, some es =>
    if start_stop_id = end_stop_id then DRes.found (sameStopRoute start_stop_id)
    else
      match ss.connections.find? (fun c => c.to_stop_id == end_stop_id) with
      | some c => DRes.found (create_route_from_connection gs c ss es)
      | none =>
        match find_route_serving_both_stops gs ss es start_stop_id end_stop_id with
        | some r => DRes.found r
        | none => dijkstra_pathfinding gs start_stop_id end_stop_id optimize_for 5 fuel
  | _, _ => DRes.noRoute

/-- `RouteOptimizer.find_route_by_stops` (route_optimizer.py lines 143-159):
membership check on both stops, then `_dijkstra_with_transfers`. -/
def findRouteByStops (gs : GraphService)
    (start_stop_id end_stop_id optimize_for : String) (fuel : Nat) : DRes :=
  if (gs.stops_cache.lookup start_stop_id).isSome &&
      (gs.stops_cache.lookup end_stop_id).isSome then
    dijkstra_with_transfers gs start_stop_id end_stop_id optimize_for fuel
  else DRes.noRoute

/-! ## Façade (`graph_service.py::find_optimal_route`) -/

/-- Python `<` between values that may be `float('inf')` (`none`). -/
def eltB : Option Flt → Option Flt → Bool
  | some a, some b => Flt.blt a b
  | some _, none => true
  | none, _ => false

/-- Python `+` on int-or-infinity values. -/
def waddOI : Option Int → Option Int → Option Int
  | some a, some b => some (a + b)
  | _, _ => none

/-- `_calculate_total_cost` (lines 573-580); the scalar is compared against
`float('inf')`, so it is embedded into `Option Flt`. -/
def calculate_total_cost (route : OptimizedRoute) (optimize_for : String) :
    Option Flt :=
  if optimize_for = "time" then
    (waddOI route.total_time route.walking_time).map Flt.ofInt
  else if optimize_for = "cost" then some route.total_cost
  else some (Flt.ofInt route.transfers)

/-- The walking adjustments applied to a found candidate (lines 196-203):
`walking_time := start + end`, `total_distance_km := start + end` (the candidate's
field was 0, so assignment and addition agree), `total_time += walking_time`. -/
def adjustRoute (gs : GraphService) (dist : DistFn) (slat slon elat elon : Flt)
    (start_stop end_stop : String) (r : OptimizedRoute) : OptimizedRoute :=
  let sw := gs.calculate_walking_time_from_coords dist slat slon start_stop
  let ew := gs.calculate_walking_time_from_coords dist elat elon end_stop
  let wt := waddOI sw.1 ew.1
  { r with walking_time := wt
           total_distance_km := Flt.add sw.2 ew.2
           total_time := waddOI r.total_time wt }

/-- The nested `for start_stop / for end_stop` loop (lines 186-213), folded over
the pair list in iteration order, tracking `best_route` and `best_cost`
(initially `None` / `float('inf')`). -/
def tryPairs (gs : GraphService) (dist : DistFn) (slat slon elat elon : Flt)
    (optimize_for : String) (fuel : Nat) :
    List (String × String) → Option OptimizedRoute → Option Flt → DRes
  | [], best, _ =>
    match best with
    | some r => DRes.found r
    | none => DRes.noRoute
  | (ss, es) :: rest, best, best_cost =>
    match dijkstra_with_transfers gs ss es optimize_for fuel with
    | DRes.fuelOut => DRes.fuelOut
    | DRes.err => DRes.err
    | DRes.noRoute => tryPairs gs dist slat slon elat elon optimize_for fuel rest best best_cost
    | DRes.found r =>
      let r' := adjustRoute gs dist slat slon elat elon ss es r
      let rc := calculate_total_cost r' optimize_for
      if eltB rc best_cost then
        tryPairs gs dist slat slon elat elon optimize_for fuel rest (some r') rc
      else
        tryPairs gs dist slat slon elat elon optimize_for fuel rest best best_cost

/-- `find_optimal_route` (lines 143-222): coordinate validation, up to three
nearest stops on each side, all start×end combinations through the search,
objective-scalar selection. -/
def find_optimal_route (gs : GraphService) (dist : DistFn)
    (slat slon elat elon : Flt) (optimize_for : String) (fuel : Nat) : DRes :=
  if ¬ gs.validate_coordinates dist slat slon then DRes.noRoute
  else if ¬ gs.validate_coordinates dist elat elon then DRes.noRoute
  else
    let startP := gs.find_nearest_stops dist slat slon 3
    let endP := gs.find_nearest_stops dist elat elon 3
    if startP.isEmpty || endP.isEmpty then DRes.noRoute
    else
      let pairs := (startP.map Prod.fst).flatMap
        (fun ss => (endP.map Prod.fst).map (fun es => (ss, es)))
      tryPairs gs dist slat slon elat elon optimize_for fuel pairs none none

/-! ## Route enhancer (`app/services/route_enhancer.py`) -/

/-- Abstract stand-in for `_calculate_bearing` (trigonometry on coordinates);
arguments are `(lat, lon)` pairs, the result is the bearing in degrees. -/
def BearFn : Type := (Flt × Flt) → (Flt × Flt) → Flt

/-- Python `round(x, 2)`: nearest hundredth, ties to even. -/
def pyRound2 (x : Flt) : Flt :=
  let y : Int := x.num * 100
  let d : Int := (x.den : Int)
  let q : Int := y / d
  let r : Int := y - q * d
  let k : Int :=
    if 2 * r < d then q
    else if d < 2 * r then q + 1
    else if q % 2 = 0 then q else q + 1
  Flt.mkD k 100

/-- Substring test on character lists (Python `pat in s`). -/
def startsWithCL : List Char → List Char → Bool
  | [], _ => true
  | _ :: _, [] => false
  | a :: as, b :: bs => a == b && startsWithCL as bs

/-- Python `pat in s` for strings. -/
def containsCL (pat : List Char) : List Char → Bool
  | [] => startsWithCL pat []
  | t :: ts => startsWithCL pat (t :: ts) || containsCL pat ts

/-- `"METRO" in route_id`. -/
def containsMETRO (s : String) : Bool := containsCL "METRO".data s.data

/-- `_bearing_to_direction` (lines 247-252): the cardinal-direction table lookup;
for bearings normalised into `[0, 360)` the index is within the table. -/
def bearing_to_direction (bearing : Flt) : String :=
  let idx := Flt.pyInt (Flt.div (Flt.add bearing (Flt.mkD 45 2)) (Flt.ofInt 45))
  ["North", "Northeast", "East", "Southeast",
   "South", "Southwest", "West", "Northwest", "North"].getD idx.toNat "North"

/-- `_generate_walking_direction` (lines 193-217). -/
def generate_walking_direction (dist : DistFn) (bearing : BearFn)
    (fromP toP : Flt × Flt) (instruction : String) : WalkingDirection :=
  let distance_km := dist fromP toP
  let distance_meters := Flt.pyInt (Flt.mul distance_km (Flt.ofInt 1000))
  let duration_seconds :=
    Flt.pyInt (Flt.mul (Flt.div distance_km (Flt.ofInt 5)) (Flt.ofInt 3600))
  let dir := bearing_to_direction (bearing fromP toP)
  { instruction := instruction ++ " (" ++ dir ++ ", "
      ++ toString distance_meters ++ "m)"
    distance_meters := distance_meters
    duration_seconds := duration_seconds }

/-- `_enhance_segment` (lines 219-230): the route type is recomputed from the
route id alone, overwriting whatever the segment carried. -/
def enhance_segment (seg : RouteSegment) : RouteSegment :=
  { seg with route_type :=
      if containsMETRO seg.route_id then "metro"
      else if seg.route_id == "WALKING" then "walking"
      else "bus" }

/-- The `"Take {type} {route} for {n} stops"` clause of the summary
(lines 72-73 / 82-83); the type here comes from a `"METRO" in id` test, not from
the cache. -/
def takeClause (current_route : String) (segment_count : Int) : String :=
  (if containsMETRO current_route then "Take metro " else "Take bus ")
    ++ current_route ++ " for " ++ toString segment_count ++ " stops"

/-- The grouping loop of `_generate_route_summary` (lines 64-83), emitting one
clause per maximal run of equal route ids. -/
def summaryGroups : List RouteSegment → String → Int → List String
  | [], current_route, segment_count => [takeClause current_route segment_count]
  | seg :: rest, current_route, segment_count =>
    if seg.route_id ≠ current_route then
      takeClause current_route segment_count :: summaryGroups rest seg.route_id 1
    else summaryGroups rest current_route (segment_count + 1)

/-- Python `x > 0` where `x` may be `float('inf')`. -/
def wgtz : Option Int → Bool
  | none => true
  | some w => 0 < w

/-- `_generate_route_summary` (lines 53-89). -/
def generate_route_summary (route : OptimizedRoute) : String :=
  match route.segments with
  | [] => "No route found"
  | seg₀ :: rest =>
    let walkStart : List String :=
      if wgtz route.start_walking_time then
        ["Walk " ++ (match route.start_walking_time with
          | some w => toString w
          | none => "inf") ++ "min to " ++ seg₀.from_stop_name]
      else []
    let transit := summaryGroups rest seg₀.route_id 1
    let walkEnd : List String :=
      if wgtz route.end_walking_time then
        ["Walk " ++ (match route.end_walking_time with
          | some w => toString w
          | none => "inf") ++ "min to destination"]
      else []
    String.intercalate " → " (walkStart ++ transit ++ walkEnd)

/-- `_calculate_co2_saved` (lines 91-105): walking distance plus per-segment
estimated transit distance (metro `(t-1)×35/60`, bus `(t-2)×20/60`, clamped at
zero), times `0.21`, rounded to two decimals. -/
def calculate_co2_saved (route : OptimizedRoute) : Flt :=
  let total := route.segments.foldl
    (fun acc seg =>
      if seg.route_type = "metro" then
        Flt.add acc (Flt.max0 (Flt.mul (Flt.ofInt (seg.time - 1))
          (Flt.div (Flt.ofInt 35) (Flt.ofInt 60))))
      else if seg.route_type = "bus" then
        Flt.add acc (Flt.max0 (Flt.mul (Flt.ofInt (seg.time - 2))
          (Flt.div (Flt.ofInt 20) (Flt.ofInt 60))))
      else acc)
    route.total_distance_km
  pyRound2 (Flt.mul total (Flt.mkD 21 100))

/-- `_add_walking_directions` (lines 112-191).  `none` models the exception
raised when a walking time of `float('inf')` is forced into the integer `time`
field of a `RouteSegment`. -/
def add_walking_directions (gs : GraphService) (dist : DistFn) (bearing : BearFn)
    (route : OptimizedRoute) (slat slon elat elon : Flt) : Option OptimizedRoute :=
  match route.segments.head? with
  | none => some route
  | some firstSeg =>
    let stepStart : Option OptimizedRoute :=
      match gs.stops_cache.lookup firstSeg.from_stop with
      | none => some route
      | some firstStop =>
        let sw := gs.calculate_walking_time_from_coords dist slat slon firstSeg.from_stop
        let route₁ := { route with start_walking_time := sw.1 }
        if wgtz sw.1 then
          match sw.1 with
          | none => none
          | some w =>
            let dirn := generate_walking_direction dist bearing (slat, slon)
              (firstStop.location.coords.2, firstStop.location.coords.1)
              ("Walk to " ++ firstStop.name)
            let wseg : RouteSegment :=
              { route_id := "WALKING", route_name := "Walking"
                route_type := "walking", from_stop := "START"
                to_stop := firstSeg.from_stop
                from_stop_name := "Your Location", to_stop_name := firstStop.name
                time := w, cost := Flt.ofInt 0
                sequence_start := 0, sequence_end := 1
                boarding_time := 0, transfer_time := 0
                walking_directions := [dirn] }
            some { route₁ with segments := wseg :: route₁.segments }
        else some route₁
    match stepStart with
    | none => none
    | some route₂ =>
      match route₂.segments.getLast? with
      | none => some route₂
      | some lastSeg =>
        match gs.stops_cache.lookup lastSeg.to_stop with
        | none => some route₂
        | some lastStop =>
          let ew := gs.calculate_walking_time_from_coords dist elat elon lastSeg.to_stop
          let route₃ := { route₂ with end_walking_time := ew.1 }
          if wgtz ew.1 then
            match ew.1 with
            | none => none
            | some w =>
              let dirn := generate_walking_direction dist bearing
                (lastStop.location.coords.2, lastStop.location.coords.1)
                (elat, elon) "Walk to destination"
              let wseg : RouteSegment :=
                { route_id := "WALKING", route_name := "Walking"
                  route_type := "walking", from_stop := lastSeg.to_stop
                  to_stop := "END"
                  from_stop_name := lastStop.name, to_stop_name := "Your Destination"
                  time := w, cost := Flt.ofInt 0
                  sequence_start := (route₃.segments.length : Int)
                  sequence_end := (route₃.segments.length : Int) + 1
                  boarding_time := 0, transfer_time := 0
                  walking_directions := [dirn] }
              some { route₃ with segments := route₃.segments ++ [wseg] }
          else some route₃

/-- `RouteEnhancer.enhance_route` (lines 26-51): summary, CO₂, calories, walking
legs, then the per-segment route-type overwrite.  `none` models the exceptions
possible when a walking quantity is `float('inf')` (`int(inf)` overflow or an
infinite segment time). -/
def enhance_route (gs : GraphService) (dist : DistFn) (bearing : BearFn)
    (route : OptimizedRoute) (slat slon elat elon : Flt) : Option OptimizedRoute :=
  let r₁ := { route with route_summary := generate_route_summary route }
  let r₂ := { r₁ with co2_saved_kg := calculate_co2_saved r₁ }
  match r₂.walking_time with
  | none => none
  | some w =>
    let r₃ := { r₂ with calories_burned := some (w * 4) }
    match add_walking_directions gs dist bearing r₃ slat slon elat elon with
    | none => none
    | some r₄ => some { r₄ with segments := r₄.segments.map enhance_segment }

/-! ## Traced search (`graph_service.py::get_algorithm_execution_steps`) -/

/-- The dummy segment dict tracked by the traced run (lines 711-717). -/
structure DummySeg where
  route_id : String
  from_stop : String
  to_stop : String
  time : Int
  cost : Flt
deriving DecidableEq, Repr

/-- A queue element of the traced run (line 598 / 721-724). -/
structure TEntry where
  cost : Flt
  counter : Nat
  stop : String
  path : List String
  segments : List DummySeg
  transfers : Int
  total_time : Int
  total_cost : Flt
deriving DecidableEq, Repr

/-- Action tags of the emitted step records. -/
inductive TAct where
  | startAct
  | skipVisited
  | processNode
  | addNeighbors
  | foundDest
  | maxSteps
  | noRouteFound
deriving DecidableEq, Repr

/-- One trace record.  Of the dict emitted by the source we keep the fields the
fidelity property concerns — the action, the `visited` snapshot, the current
path and the found flag; descriptions and top-5 queue snapshots are
presentation only. -/
structure TStep where
  act : TAct
  visited : List String
  path : List String
  found : Bool
deriving DecidableEq, Repr

/-- Heap order for the traced queue (same tuple comparison as the search). -/
def tentryLe (a b : TEntry) : Bool :=
  Flt.blt a.cost b.cost || (Flt.beqv a.cost b.cost && Nat.ble a.counter b.counter)

/-- `heapq.heappop` for the traced queue. -/
def tpopMin : List TEntry → Option (TEntry × List TEntry)
  | [] => none
  | e :: es =>
    match tpopMin es with
    | none => some (e, [])
    | some (m, rest) => if tentryLe e m then some (e, es) else some (m, e :: rest)

/-- One iteration of the neighbour loop of the traced run (lines 671-730):
unconditional push (no `best_costs` pruning), and the same `KeyError`
possibility at lines 708-709; also accumulates `neighbors_added`. -/
def tstepConn (gs : GraphService) (optimize_for : String) (e : TEntry)
    (st : List TEntry × Nat × List (String × Flt × String)) (c : Conn) :
    Option (List TEntry × Nat × List (String × Flt × String)) :=
  if c.to_stop_id ∈ e.path then some st
  else
    let pens := gs.get_mode_specific_penalties c.route_id
    let boarding_penalty : Int :=
      match e.segments.getLast? with
      | none => pens.1
      | some lastSeg => if lastSeg.route_id ≠ c.route_id then pens.1 + pens.2 else 0
    let is_transfer : Bool :=
      match e.segments.getLast? with
      | none => false
      | some lastSeg => lastSeg.route_id ≠ c.route_id
    let new_time := e.total_time + c.time + boarding_penalty
    let new_cost := Flt.add e.total_cost c.cost
    let new_transfers := e.transfers + (if is_transfer then 1 else 0)
    let priority := priorityOf optimize_for new_time new_cost new_transfers
    match gs.stops_cache.lookup c.to_stop_id with
    | none => none
    | some _nextStop =>
      let dummy : DummySeg :=
        { route_id := c.route_id, from_stop := e.stop, to_stop := c.to_stop_id,
          time := c.time, cost := c.cost }
      some (st.1 ++
        [{ cost := priority, counter := st.2.1, stop := c.to_stop_id,
           path := e.path ++ [c.to_stop_id], segments := e.segments ++ [dummy],
           transfers := new_transfers, total_time := new_time,
           total_cost := new_cost }],
        st.2.1 + 1,
        st.2.2 ++ [(c.to_stop_id, priority, c.route_id)])

/-- Fold of `tstepConn` over a connection list. -/
def texpand (gs : GraphService) (optimize_for : String) (e : TEntry) :
    List Conn → List TEntry × Nat × List (String × Flt × String) →
    Option (List TEntry × Nat × List (String × Flt × String))
  | [], st => some st
  | c :: cs, st =>
    match tstepConn gs optimize_for e st c with
    | none => none
    | some st' => texpand gs optimize_for e cs st'

/-- The `while pq and step_count < 100` loop (lines 615-744) plus the post-loop
records (lines 746-789).  `lastCur` carries the `current_stop`/`path` locals for
the terminal record (`[start]`-based defaults before the first pop). -/
def tloop (gs : GraphService) (start_stop_id end_stop_id optimize_for : String) :
    Nat → List TEntry → List String → Nat → Nat → List TStep →
    Option (String × List String) → Option (List TStep)
  | 0, _, _, _, _, _, _ => none
  | fuel + 1, pq, visited, ctr, step_count, steps, lastCur =>
    if pq.isEmpty || 100 ≤ step_count then
      let cur := match lastCur with
        | some c => c
        | none => (start_stop_id, [start_stop_id])
      let maxRec : TStep := { act := TAct.maxSteps, visited := visited, path := cur.2, found := false }
      let noRec : TStep := { act := TAct.noRouteFound, visited := visited, path := cur.2, found := false }
      if 100 ≤ step_count then
        if ¬ pq.isEmpty then some (steps ++ [maxRec])
        else some (steps ++ [noRec])
      else some (steps ++ [noRec])
    else
      match tpopMin pq with
      | none => none
      | some (e, rest) =>
        if e.stop ∈ visited then
          let skipRec : TStep := { act := TAct.skipVisited, visited := visited, path := e.path, found := false }
          tloop gs start_stop_id end_stop_id optimize_for fuel rest visited ctr
            (step_count + 1) (steps ++ [skipRec]) (some (e.stop, e.path))
        else
          let visited' := visited ++ [e.stop]
          if e.stop = end_stop_id then
            let foundRec : TStep := { act := TAct.foundDest, visited := visited', path := e.path, found := true }
            let tailRec' : List TStep :=
              if rest.isEmpty then
                [{ act := TAct.noRouteFound, visited := visited', path := e.path, found := false }]
              else []
            some (steps ++ [foundRec] ++ tailRec')
          else
            let procRec : TStep := { act := TAct.processNode, visited := visited', path := e.path, found := false }
            let steps₁ := steps ++ [procRec]
            let step_count₁ := step_count + 1
            match gs.stops_cache.lookup e.stop with
            | none =>
              tloop gs start_stop_id end_stop_id optimize_for fuel rest visited'
                ctr step_count₁ steps₁ (some (e.stop, e.path))
            | some stObj =>
              match texpand gs optimize_for e stObj.connections (rest, ctr, []) with
              | none => none
              | some (pq', ctr', neighbors_added) =>
                if ¬ neighbors_added.isEmpty then
                  let nbRec : TStep := { act := TAct.addNeighbors, visited := visited', path := e.path, found := false }
                  tloop gs start_stop_id end_stop_id optimize_for fuel pq' visited'
                    ctr' (step_count₁ + 1) (steps₁ ++ [nbRec]) (some (e.stop, e.path))
                else
                  tloop gs start_stop_id end_stop_id optimize_for fuel pq' visited'
                    ctr' step_count₁ steps₁ (some (e.stop, e.path))

/-- `get_algorithm_execution_steps` (lines 582-791): `[]` for unknown endpoints,
otherwise the initial record followed by the traced loop.  `none` models an
uncaught exception (`KeyError` on a dangling connection) or fuel exhaustion. -/
def get_algorithm_execution_steps (gs : GraphService)
    (start_stop_id end_stop_id optimize_for : String) (fuel : Nat) :
    Option (List TStep) :=
  if (gs.stops_cache.lookup start_stop_id).isSome &&
      (gs.stops_cache.lookup end_stop_id).isSome then
    let e0 : TEntry := { cost := Flt.ofInt 0, counter := 0, stop := start_stop_id, path := [start_stop_id], segments := [], transfers := 0, total_time := 0, total_cost := Flt.ofInt 0 }
    let s0 : TStep := { act := TAct.startAct, visited := [], path := [start_stop_id], found := false }
    tloop gs start_stop_id end_stop_id optimize_for fuel [e0] [] 1 1 [s0] none
  else some []


/-! ## Specification-side notions -/

/-- Existence of a connection edge from `u` to `v` in the snapshot. -/
def EdgeOk (gs : GraphService) (u v : String) : Prop :=
  ∃ st, gs.stops_cache.lookup u = some st ∧ ∃ c ∈ st.connections, c.to_stop_id = v

/-- A stop-id list is a path of the connection graph. -/
def ChainOk (gs : GraphService) : List String → Prop := List.Chain' (EdgeOk gs)

/-- Connection targets of a stop. -/
def neighborsOf (gs : GraphService) (u : String) : List String :=
  match gs.stops_cache.lookup u with
  | some st => st.connections.map Conn.to_stop_id
  | none => []

/-- One round of reachability closure. -/
def reachStep (gs : GraphService) (S : List String) : List String :=
  S ++ S.flatMap (neighborsOf gs)

/-- Stops reachable from `s` by paths of at most `n` edges (with repetitions in
the list; only membership matters). -/
def reachN (gs : GraphService) : Nat → String → List String
  | 0, s => [s]
  | n + 1, s => reachStep gs (reachN gs n s)

/-- Every connection of every cached stop targets a cached stop (no dangling
edges; the condition under which the search cannot raise `KeyError`). -/
def ClosedGraph (gs : GraphService) : Prop :=
  ∀ p ∈ gs.stops_cache, ∀ c ∈ p.2.connections,
    (gs.stops_cache.lookup c.to_stop_id).isSome = true

/-- A concrete edge list is a chain of the snapshot from `s` to `t`
(each connection belongs to the stop reached so far). -/
def connChainB (gs : GraphService) : String → List Conn → String → Bool
  | s, [], t => s == t
  | s, c :: cs, t =>
    (match gs.stops_cache.lookup s with
     | some st => st.connections.contains c
     | none => false) && connChainB gs c.to_stop_id cs t

/-- The stop ids visited by an edge list starting at `s`. -/
def connStops (s : String) (cs : List Conn) : List String :=
  s :: cs.map Conn.to_stop_id

/-- Accumulate `(time, transfers)` along an edge list with the search's own
boarding/transfer-penalty rule (boarding on the first edge, boarding plus
transfer walk when the route id changes). -/
def pathAccum (gs : GraphService) : List Conn → Option String → Int × Int → Int × Int
  | [], _, acc => acc
  | c :: cs, prev, acc =>
    let pens := gs.get_mode_specific_penalties c.route_id
    match prev with
    | none => pathAccum gs cs (some c.route_id) (acc.1 + c.time + pens.1, acc.2)
    | some p =>
      if p ≠ c.route_id then
        pathAccum gs cs (some c.route_id) (acc.1 + c.time + pens.1 + pens.2, acc.2 + 1)
      else pathAccum gs cs (some c.route_id) (acc.1 + c.time, acc.2)

/-- Transfer count of an edge list under the search's rule. -/
def pathTransfers (gs : GraphService) (cs : List Conn) : Int :=
  (pathAccum gs cs none (0, 0)).2

/-- Priority key of an edge list for the `transfers` objective
(`transfers × 100 + time`). -/
def pathKeyTransfers (gs : GraphService) (cs : List Conn) : Int :=
  let a := pathAccum gs cs none (0, 0)
  a.2 * 100 + a.1

/-- Priority key of a returned itinerary for the `transfers` objective. -/
def routeKeyTransfers (r : OptimizedRoute) : Option Int :=
  r.total_time.map (fun t => r.transfers * 100 + t)

/-- Key of a direct (single-connection) path for the `transfers` objective:
no transfer, boarding penalty of its route plus the edge time. -/
def directKeyTransfers (gs : GraphService) (c : Conn) : Int :=
  c.time + (gs.get_mode_specific_penalties c.route_id).1

/-- Whether a search outcome is a returned itinerary. -/
def DRes.isFound : DRes → Bool
  | DRes.found _ => true
  | _ => false

/-- The `transfers`-objective key of a returned itinerary, if any. -/
def DRes.keyT : DRes → Option Int
  | DRes.found r => routeKeyTransfers r
  | _ => none

/-- Whether a trace contains a `found_destination` record. -/
def traceFound (o : Option (List TStep)) : Bool :=
  match o with
  | some steps => steps.any (fun st => st.act == TAct.foundDest && st.found)
  | none => false

/-- Whether some record of a trace has `x` in its visited set. -/
def traceVisitedHas (o : Option (List TStep)) (x : String) : Bool :=
  match o with
  | some steps => steps.any (fun st => st.visited.contains x)
  | none => false

/-- Semantics of an int-or-infinity value in `WithTop ℚ` (for stating order
facts about `float('inf')`-capable comparisons). -/
def toQI : Option Flt → WithTop ℚ
  | some x => (x.toRat : WithTop ℚ)
  | none => ⊤

/-- The candidate pair list tried by `find_optimal_route`, in iteration order. -/
def candidatePairs (gs : GraphService) (dist : DistFn)
    (slat slon elat elon : Flt) : List (String × String) :=
  ((gs.find_nearest_stops dist slat slon 3).map Prod.fst).flatMap
    (fun ss => ((gs.find_nearest_stops dist elat elon 3).map Prod.fst).map
      (fun es => (ss, es)))

/-- The walking-adjusted candidate produced for one pair, when the search finds
an itinerary for it. -/
def candAt (gs : GraphService) (dist : DistFn) (slat slon elat elon : Flt)
    (optimize_for : String) (fuel : Nat) (p : String × String) :
    Option OptimizedRoute :=
  match dijkstra_with_transfers gs p.1 p.2 optimize_for fuel with
  | DRes.found r => some (adjustRoute gs dist slat slon elat elon p.1 p.2 r)
  | _ => none

/-! ## Concrete snapshots used by witnesses and counterexamples -/

/-- A stop at the given coordinates. -/
def exStop (sid nm : String) (lon lat : Flt) (conns : List Conn) : String × Stop :=
  (sid, { stop_id := sid, name := nm, location := ⟨(lon, lat)⟩, connections := conns })

/-- A connection with unit cost. -/
def exConn (tgt rid : String) (t : Int) : Conn :=
  { to_stop_id := tgt, route_id := rid, time := t, cost := Flt.ofInt 1, sequence := 1 }

/-- The zero distance function (a geodesic realises it when all points used
coincide). -/
def dist0 : DistFn := fun _ _ => Flt.ofInt 0

/-- Snapshot of the B030/B033 regression: B030 and B031 connected both ways on
route R10, B033 isolated. -/
def b030Gs : GraphService :=
  { stops_cache := [
      exStop "B030" "Stop 30" (Flt.ofInt 0) (Flt.ofInt 0) [exConn "B031" "R10" 5],
      exStop "B031" "Stop 31" (Flt.ofInt 0) (Flt.ofInt 0) [exConn "B030" "R10" 5],
      exStop "B033" "Stop 33" (Flt.ofInt 0) (Flt.ofInt 0) []],
    routes_cache := [("R10",
      { route_id := "R10", route_long_name := "Route Ten", route_type := "bus",
        stops := ["B030", "B031"] })] }

/-- Snapshot with a dangling connection: S points at the uncached stop Z; T is
isolated. -/
def dangGs : GraphService :=
  { stops_cache := [
      exStop "S" "S" (Flt.ofInt 0) (Flt.ofInt 0) [exConn "Z" "R1" 3],
      exStop "T" "T" (Flt.ofInt 0) (Flt.ofInt 0) []],
    routes_cache := [] }

/-- Snapshot for the transfer-optimality counterexample: two parallel edges
S→M (slow on RA, fast on RB) and M→T on RA. -/
def c3Gs : GraphService :=
  { stops_cache := [
      exStop "S" "S" (Flt.ofInt 0) (Flt.ofInt 0) [exConn "M" "RA" 10, exConn "M" "RB" 5],
      exStop "M" "M" (Flt.ofInt 0) (Flt.ofInt 0) [exConn "T" "RA" 1],
      exStop "T" "T" (Flt.ofInt 0) (Flt.ofInt 0) []],
    routes_cache := [] }

/-- The all-RA simple path S→M→T of `c3Gs`. -/
def c3AltConns : List Conn := [exConn "M" "RA" 10, exConn "T" "RA" 1]

/-- Snapshot for the max-transfers monotonicity counterexample: a transfer-free
but slow edge S→u, a fast two-transfer chain S→x→y→u, and u→T on the slow
edge's route. -/
def c8Gs : GraphService :=
  { stops_cache := [
      exStop "S" "S" (Flt.ofInt 0) (Flt.ofInt 0) [exConn "x" "R2" 1, exConn "u" "R1" 48],
      exStop "x" "x" (Flt.ofInt 0) (Flt.ofInt 0) [exConn "y" "R3" 1],
      exStop "y" "y" (Flt.ofInt 0) (Flt.ofInt 0) [exConn "u" "R4" 1],
      exStop "u" "u" (Flt.ofInt 0) (Flt.ofInt 0) [exConn "T" "R1" 1],
      exStop "T" "T" (Flt.ofInt 0) (Flt.ofInt 0) []],
    routes_cache := [] }

/-- Snapshot for the trace-fidelity divergence: a 7-edge chain, each edge on its
own route, so the destination needs 6 transfers. -/
def chainGs : GraphService :=
  { stops_cache := [
      exStop "S" "S" (Flt.ofInt 0) (Flt.ofInt 0) [exConn "a1" "R1" 1],
      exStop "a1" "a1" (Flt.ofInt 0) (Flt.ofInt 0) [exConn "a2" "R2" 1],
      exStop "a2" "a2" (Flt.ofInt 0) (Flt.ofInt 0) [exConn "a3" "R3" 1],
      exStop "a3" "a3" (Flt.ofInt 0) (Flt.ofInt 0) [exConn "a4" "R4" 1],
      exStop "a4" "a4" (Flt.ofInt 0) (Flt.ofInt 0) [exConn "a5" "R5" 1],
      exStop "a5" "a5" (Flt.ofInt 0) (Flt.ofInt 0) [exConn "a6" "R6" 1],
      exStop "a6" "a6" (Flt.ofInt 0) (Flt.ofInt 0) [exConn "T" "R7" 1],
      exStop "T" "T" (Flt.ofInt 0) (Flt.ofInt 0) []],
    routes_cache := [] }

/-- Snapshot with a single direct edge W→V (used to witness the amended
transfer-optimality bound). -/
def cwGs : GraphService :=
  { stops_cache := [
      exStop "W" "W" (Flt.ofInt 0) (Flt.ofInt 0) [exConn "V" "R1" 5],
      exStop "V" "V" (Flt.ofInt 0) (Flt.ofInt 0) []],
    routes_cache := [] }

/-- Snapshot for the nearest-stop tie-break counterexample: two co-located
stops, cached in the order B2, B1. -/
def c9Gs : GraphService :=
  { stops_cache := [
      exStop "B2" "Beta" (Flt.ofInt 0) (Flt.ofInt 0) [],
      exStop "B1" "Alpha" (Flt.ofInt 0) (Flt.ofInt 0) []],
    routes_cache := [] }

/-- Snapshot with a single known stop (used for the unknown-stop walking-time
divergence). -/
def c6Gs : GraphService :=
  { stops_cache := [exStop "K" "Known" (Flt.ofInt 3) (Flt.ofInt 4) []],
    routes_cache := [] }

/-- Snapshot for the facade witness: P connected to Q on a metro-named route
whose cached type tag is `"train"`. -/
def c5Gs : GraphService :=
  { stops_cache := [
      exStop "P" "P" (Flt.ofInt 0) (Flt.ofInt 0) [exConn "Q" "METRO_X" 10],
      exStop "Q" "Q" (Flt.ofInt 0) (Flt.ofInt 0) []],
    routes_cache := [("METRO_X",
      { route_id := "METRO_X", route_long_name := "X Line", route_type := "train",
        stops := ["P", "Q"] })] }


/-! ## Invariants of the search loop -/

/-- Well-formedness of a queue entry relative to the start stop and the current
`best_costs` table: its path is a real acyclic chain from the start to its stop,
every stop of the path is recorded in the table, and the transfer counter is at
most the number of edges of the path. -/
def EntryWF (gs : GraphService) (s : String) (best : List (String × Flt))
    (e : Entry) : Prop :=
  e.path ≠ [] ∧ e.path.head? = some s ∧ e.path.getLast? = some e.stop ∧
  e.path.Nodup ∧ ChainOk gs e.path ∧
  (∀ x ∈ e.path, (best.lookup x).isSome = true) ∧
  e.transfers + 1 ≤ (e.path.length : Int)

/-- Every stop recorded in the `best_costs` table is the start stop or a cached
stop (entries are pushed only after the target's cache lookup succeeded). -/
def BestDom (gs : GraphService) (s : String) (best : List (String × Flt)) : Prop :=
  ∀ k, (best.lookup k).isSome = true → k = s ∨ k ∈ gs.stops_cache.map Prod.fst

/-- Witness-or-closed invariant: every stop recorded in `best_costs` either
still has a queue entry at exactly its recorded priority, or is a fully
expanded non-destination stop all of whose connection targets are recorded. -/
def WOC (gs : GraphService) (t : String) (pq : List Entry)
    (best : List (String × Flt)) : Prop :=
  ∀ k v, best.lookup k = some v →
    (∃ e ∈ pq, e.stop = k ∧ e.cost = v) ∨
    (k ≠ t ∧ ∀ w ∈ neighborsOf gs k, (best.lookup w).isSome = true)

/-- For the `transfers` objective every entry's priority is its own key
`transfers × 100 + accumulated time`. -/
def KeyInv (e : Entry) : Prop :=
  e.cost = Flt.ofInt (e.transfers * 100 + e.total_time)

/-- Pointwise decrease of the `best_costs` table: every recorded stop stays
recorded, at a value no larger than before. -/
def BestLe (b' b : List (String × Flt)) : Prop :=
  ∀ k v, b.lookup k = some v → ∃ v', b'.lookup k = some v' ∧ v'.toRat ≤ v.toRat



/-- The cache is keyed by the stops' own identifiers, as `load_graph_data` builds
it (`self.stops_cache[stop.stop_id] = stop`, line 33). -/
def CacheKeyed (gs : GraphService) : Prop :=
  ∀ p ∈ gs.stops_cache, p.2.stop_id = p.1

instance (gs : GraphService) : Decidable (ClosedGraph gs) :=
  inferInstanceAs (Decidable (∀ p ∈ gs.stops_cache, ∀ c ∈ p.2.connections,
    (gs.stops_cache.lookup c.to_stop_id).isSome = true))

instance (gs : GraphService) : Decidable (CacheKeyed gs) :=
  inferInstanceAs (Decidable (∀ p ∈ gs.stops_cache, p.2.stop_id = p.1))

/-- Search outcome used to witness the amended transfer-optimality bound. -/
def cwRes : DRes := dijkstra_pathfinding cwGs "W" "V" "transfers" 5 50

/-- A constant distance function of 0.3 km. -/
def distP3 : DistFn := fun _ _ => Flt.mkD 3 10

/-- The zero bearing function (abstract stand-in for `_calculate_bearing`). -/
def bear0 : BearFn := fun _ _ => Flt.ofInt 0

/-- A direct-connection itinerary of `c5Gs`, fed to the enhancer witness. -/
def c10Base : OptimizedRoute :=
  create_route_from_connection c5Gs (exConn "Q" "METRO_X" 10)
    (exStop "P" "P" (Flt.ofInt 0) (Flt.ofInt 0) [exConn "Q" "METRO_X" 10]).2
    (exStop "Q" "Q" (Flt.ofInt 0) (Flt.ofInt 0) []).2

/-- The enhanced witness itinerary. -/
def c10Enh : Option OptimizedRoute :=
  enhance_route c5Gs dist0 bear0 c10Base (Flt.ofInt 0) (Flt.ofInt 0)
    (Flt.ofInt 0) (Flt.ofInt 0)

/-- Boolean check that every segment of the enhanced witness itinerary has the
route type dictated by its route id. -/
def c10AllTyped : Bool :=
  match c10Enh with
  | some r => r.segments.all (fun seg => seg.route_type ==
      (if containsMETRO seg.route_id then "metro"
       else if seg.route_id == "WALKING" then "walking" else "bus"))
  | none => false

/-- Order on the `(stopId, distanceKm)` result pairs of the nearest-stop query:
ascending distance, ties broken by ascending stop id. -/
def NearLe (a b : String × Flt) : Prop :=
  a.2.toRat < b.2.toRat ∨
    (a.2.toRat = b.2.toRat ∧ (charListLt a.1.data b.1.data = true ∨ a.1 = b.1))

/-! # Theorems

Everything below is proof; no further executable definitions except derived
specification-side predicates appear earlier. -/

namespace Flt

theorem den_mkD {d : Nat} (h : 0 < d) (n : Int) : (mkD n d).den = d := by
  simp [mkD, den]
  omega

theorem den_pos (x : Flt) : 0 < (x.den : ℚ) := by
  have : 0 < x.den := Nat.succ_pos _
  exact_mod_cast this

theorem den_add (x y : Flt) : (add x y).den = x.den * y.den := by
  have h : 0 < x.den * y.den := Nat.mul_pos (Nat.succ_pos _) (Nat.succ_pos _)
  show x.den * y.den - 1 + 1 = x.den * y.den
  omega

theorem den_mul (x y : Flt) : (mul x y).den = x.den * y.den := by
  have h : 0 < x.den * y.den := Nat.mul_pos (Nat.succ_pos _) (Nat.succ_pos _)
  show x.den * y.den - 1 + 1 = x.den * y.den
  omega

theorem blt_iff {x y : Flt} : blt x y = true ↔ x.toRat < y.toRat := by
  rw [blt, toRat, toRat, div_lt_div_iff₀ (den_pos x) (den_pos y), decide_eq_true_eq]
  constructor
  · intro h
    exact_mod_cast h
  · intro h
    exact_mod_cast h

theorem ble_iff {x y : Flt} : ble x y = true ↔ x.toRat ≤ y.toRat := by
  rw [ble, toRat, toRat, div_le_div_iff₀ (den_pos x) (den_pos y), decide_eq_true_eq]
  constructor
  · intro h
    exact_mod_cast h
  · intro h
    exact_mod_cast h

theorem beqv_iff {x y : Flt} : beqv x y = true ↔ x.toRat = y.toRat := by
  rw [beqv, toRat, toRat, div_eq_div_iff (den_pos x).ne' (den_pos y).ne',
    decide_eq_true_eq]
  constructor
  · intro h
    exact_mod_cast h
  · intro h
    exact_mod_cast h

theorem blt_eq_false_iff {x y : Flt} : blt x y = false ↔ y.toRat ≤ x.toRat := by
  rw [← not_lt, ← blt_iff, Bool.not_eq_true]

theorem ble_eq_false_iff {x y : Flt} : ble x y = false ↔ y.toRat < x.toRat := by
  rw [← not_le, ← ble_iff, Bool.not_eq_true]

theorem toRat_ofInt (n : Int) : (ofInt n).toRat = (n : ℚ) := by
  simp [ofInt, toRat, den]

theorem blt_ofInt {a b : Int} : blt (ofInt a) (ofInt b) = true ↔ a < b := by
  rw [blt_iff, toRat_ofInt, toRat_ofInt]
  exact Int.cast_lt

theorem ble_ofInt {a b : Int} : ble (ofInt a) (ofInt b) = true ↔ a ≤ b := by
  rw [ble_iff, toRat_ofInt, toRat_ofInt]
  exact Int.cast_le

theorem blt_self (x : Flt) : blt x x = false := by
  rw [Bool.eq_false_iff, ne_eq, blt_iff]
  exact fun h => lt_irrefl _ h

theorem toRat_add (x y : Flt) : (add x y).toRat = x.toRat + y.toRat := by
  have hx : ((x.den : ℚ)) ≠ 0 := (den_pos x).ne'
  have hy : ((y.den : ℚ)) ≠ 0 := (den_pos y).ne'
  rw [toRat, toRat, toRat, den_add]
  show ((x.num * y.den + y.num * x.den : Int) : ℚ) / ((x.den * y.den : Nat) : ℚ) = _
  push_cast
  field_simp

theorem toRat_mul (x y : Flt) : (mul x y).toRat = x.toRat * y.toRat := by
  have hx : ((x.den : ℚ)) ≠ 0 := (den_pos x).ne'
  have hy : ((y.den : ℚ)) ≠ 0 := (den_pos y).ne'
  rw [toRat, toRat, toRat, den_mul]
  show ((x.num * y.num : Int) : ℚ) / ((x.den * y.den : Nat) : ℚ) = _
  push_cast
  field_simp

theorem toRat_div_pos {y : Flt} (hy : 0 < y.num) (x : Flt) :
    (div x y).toRat = x.toRat / y.toRat := by
  have hy0 : y.num ≠ 0 := hy.ne'
  have hsign : Int.sign y.num = 1 := Int.sign_eq_one_of_pos hy
  have habsZ : ((y.num.natAbs : Int)) = y.num := Int.natAbs_of_nonneg hy.le
  have habs : ((y.num.natAbs : Nat) : ℚ) = (y.num : ℚ) := by
    rw [Int.cast_natAbs]
    exact_mod_cast abs_of_pos hy
  have hdenpos : 0 < x.den * y.num.natAbs :=
    Nat.mul_pos (Nat.succ_pos _) (Int.natAbs_pos.mpr hy0)
  have hdiv : div x y = ⟨x.num * y.den * Int.sign y.num, x.den * y.num.natAbs - 1⟩ := by
    rw [div, if_neg hy0]
  have hden : (div x y).den = x.den * y.num.natAbs := by
    rw [hdiv]
    show x.den * y.num.natAbs - 1 + 1 = x.den * y.num.natAbs
    omega
  have hnum : (div x y).num = x.num * y.den := by
    rw [hdiv, hsign]
    simp
  rw [toRat, hden, hnum]
  rw [toRat, toRat]
  have hxden : ((x.den : ℚ)) ≠ 0 := (den_pos x).ne'
  have hyden : ((y.den : ℚ)) ≠ 0 := (den_pos y).ne'
  have hynum : ((y.num : ℚ)) ≠ 0 := by exact_mod_cast hy0
  push_cast [habs]
  field_simp

theorem pyInt_eq_floor {x : Flt} (h : 0 ≤ x.toRat) : pyInt x = ⌊x.toRat⌋ := by
  have hnum : 0 ≤ x.num := by
    by_contra hneg
    push_neg at hneg
    have : x.toRat < 0 := by
      rw [toRat]
      apply div_neg_of_neg_of_pos _ (den_pos x)
      exact_mod_cast hneg
    exact absurd h (not_le.mpr this)
  have hfl : ⌊x.toRat⌋ = x.num / (x.den : Int) := by
    rw [toRat]
    exact Rat.floor_intCast_div_natCast x.num x.den
  rw [hfl, pyInt]
  have hdnn : (0 : Int) ≤ (x.den : Int) := by positivity
  exact Int.tdiv_eq_ediv hnum hdnn

end Flt

/-! ## Queue and table basics -/

theorem popMin_eq_none {pq : List Entry} : popMin pq = none ↔ pq = [] := by
  cases pq with
  | nil => simp [popMin]
  | cons e es =>
    simp only [popMin]
    constructor
    · intro h
      rcases hrec : popMin es with _ | p
      · rw [hrec] at h
        exact absurd h (by simp)
      · rw [hrec] at h
        rcases p with ⟨m, rest⟩
        by_cases hle : entryLe e m = true <;> simp [hle] at h
    · intro h
      exact absurd h (by simp)

theorem popMin_mem {pq : List Entry} {e : Entry} {rest : List Entry}
    (h : popMin pq = some (e, rest)) : e ∈ pq := by
  induction pq generalizing e rest with
  | nil => simp [popMin] at h
  | cons a as ih =>
    simp only [popMin] at h
    rcases hrec : popMin as with _ | p
    · rw [hrec] at h
      simp at h
      simp [h.1]
    · rw [hrec] at h
      rcases p with ⟨m, r⟩
      by_cases hle : entryLe a m = true
      · simp [hle] at h
        simp [h.1]
      · simp [hle] at h
        have := @ih m r hrec
        rcases h with ⟨h1, _⟩
        right
        rw [← h1]
        exact this

theorem popMin_cover {pq : List Entry} {e : Entry} {rest : List Entry}
    (h : popMin pq = some (e, rest)) : ∀ x ∈ pq, x = e ∨ x ∈ rest := by
  induction pq generalizing e rest with
  | nil => simp [popMin] at h
  | cons a as ih =>
    simp only [popMin] at h
    intro x hx
    rw [List.mem_cons] at hx
    rcases hrec : popMin as with _ | p
    · rw [hrec] at h
      simp at h
      rcases hx with hx | hx
      · left
        rw [hx, ← h.1]
      · rw [popMin_eq_none.mp hrec] at hx
        simp at hx
    · rw [hrec] at h
      rcases p with ⟨m, r⟩
      by_cases hle : entryLe a m = true
      · simp [hle] at h
        rcases hx with hx | hx
        · left
          rw [hx, ← h.1]
        · right
          rw [← h.2]
          exact hx
      · simp [hle] at h
        rcases hx with hx | hx
        · right
          rw [← h.2]
          simp [hx]
        · rcases ih hrec x hx with h1 | h1
          · left
            rw [h1, ← h.1]
          · right
            rw [← h.2]
            simp [h1]

theorem popMin_rest_sub {pq : List Entry} {e : Entry} {rest : List Entry}
    (h : popMin pq = some (e, rest)) : ∀ x ∈ rest, x ∈ pq := by
  induction pq generalizing e rest with
  | nil => simp [popMin] at h
  | cons a as ih =>
    simp only [popMin] at h
    rcases hrec : popMin as with _ | p
    · rw [hrec] at h
      simp at h
      intro x hx
      rw [h.2] at hx
      simp at hx
    · rw [hrec] at h
      rcases p with ⟨m, r⟩
      by_cases hle : entryLe a m = true
      · simp [hle] at h
        intro x hx
        rw [← h.2] at hx
        simp [hx]
      · simp [hle] at h
        intro x hx
        rw [← h.2] at hx
        rw [List.mem_cons] at hx
        rcases hx with hx | hx
        · simp [hx]
        · right
          exact ih hrec x hx

theorem lookup_cons_self {k : String} {v : Flt} {l : List (String × Flt)} :
    ((k, v) :: l).lookup k = some v := by
  simp [List.lookup]

theorem lookup_cons_ne {k k' : String} {v : Flt} {l : List (String × Flt)}
    (h : k' ≠ k) : ((k, v) :: l).lookup k' = l.lookup k' := by
  simp [List.lookup, beq_false_of_ne h]

theorem lookup_mem_pair {α β : Type} [BEq α] [LawfulBEq α] {l : List (α × β)}
    {k : α} {v : β} (h : l.lookup k = some v) : (k, v) ∈ l := by
  induction l with
  | nil => simp [List.lookup] at h
  | cons p rest ih =>
    rcases p with ⟨k', v'⟩
    by_cases hk : k == k'
    · have hkk : k = k' := eq_of_beq hk
      rw [List.lookup, hk] at h
      simp at h
      simp [hkk, h]
    · rw [List.lookup] at h
      rw [Bool.not_eq_true] at hk
      rw [hk] at h
      right
      exact ih h

theorem mem_keys_lookup_isSome {α β : Type} [BEq α] [LawfulBEq α]
    {l : List (α × β)} {k : α} (h : k ∈ l.map Prod.fst) :
    (l.lookup k).isSome = true := by
  induction l with
  | nil => simp at h
  | cons p rest ih =>
    rcases p with ⟨k', v'⟩
    simp at h
    rcases h with h | h
    · rw [List.lookup, h]
      simp
    · by_cases hk : k == k'
      · rw [List.lookup, hk]
        simp
      · rw [List.lookup]
        rw [Bool.not_eq_true] at hk
        rw [hk]
        apply ih
        simp only [List.mem_map]
        obtain ⟨b, hb⟩ := h
        exact ⟨(k, b), hb, rfl⟩

theorem BestLe.refl (b : List (String × Flt)) : BestLe b b :=
  fun k v h => ⟨v, h, le_refl _⟩

theorem BestLe.trans {a b c : List (String × Flt)} (h1 : BestLe a b)
    (h2 : BestLe b c) : BestLe a c := by
  intro k v hc
  obtain ⟨v1, hb, hv1⟩ := h2 k v hc
  obtain ⟨v2, ha, hv2⟩ := h1 k v1 hb
  exact ⟨v2, ha, le_trans hv2 hv1⟩

theorem BestLe.isSome {b' b : List (String × Flt)} (h : BestLe b' b) {k : String}
    (hk : (b.lookup k).isSome = true) : (b'.lookup k).isSome = true := by
  obtain ⟨v, hv⟩ := Option.isSome_iff_exists.mp hk
  obtain ⟨v', hv', _⟩ := h k v hv
  simp [hv']


/-! ## Characterisation of one expansion step -/

theorem stepConn_spec {gs : GraphService} {obj : String} {e : Entry} {nm : String}
    {st st' : ExpSt} {c : Conn} (h : stepConn gs obj e nm st c = some st') :
    (st' = st ∧
      (c.to_stop_id ∈ e.path ∨
        ∃ b, st.best.lookup c.to_stop_id = some b ∧
          Flt.blt (prioOf gs obj e c) b = false)) ∨
    (c.to_stop_id ∉ e.path ∧
      (gs.stops_cache.lookup c.to_stop_id).isSome = true ∧
      (∀ b, st.best.lookup c.to_stop_id = some b →
        Flt.blt (prioOf gs obj e c) b = true) ∧
      ∃ nent : Entry,
        st' = ⟨st.pq ++ [nent], (c.to_stop_id, prioOf gs obj e c) :: st.best,
          st.ctr + 1⟩ ∧
        nent.stop = c.to_stop_id ∧
        nent.cost = prioOf gs obj e c ∧
        nent.path = e.path ++ [c.to_stop_id] ∧
        nent.transfers = newTransfersOf e c ∧
        nent.total_time = newTimeOf gs e c ∧
        nent.total_cost = newCostOf e c) := by
  unfold stepConn at h
  dsimp only at h
  by_cases hmem : c.to_stop_id ∈ e.path
  · rw [if_pos hmem] at h
    left
    exact ⟨(Option.some.inj h).symm, Or.inl hmem⟩
  · rw [if_neg hmem] at h
    rcases hlk : gs.stops_cache.lookup c.to_stop_id with _ | nextStop
    · rw [hlk] at h
      exact absurd h (by simp)
    · rw [hlk] at h
      rcases hbk : st.best.lookup c.to_stop_id with _ | b
      · rw [hbk] at h
        dsimp only at h
        rw [if_pos rfl] at h
        right
        refine ⟨hmem, by simp [hlk], ?_, ?_⟩
        · intro b' hb'
          exact absurd hb' (by simp)
        · exact ⟨_, (Option.some.inj h).symm, rfl, rfl, rfl, rfl, rfl, rfl⟩
      · rw [hbk] at h
        dsimp only at h
        by_cases hblt : Flt.blt (prioOf gs obj e c) b = true
        · rw [if_pos hblt] at h
          right
          refine ⟨hmem, by simp [hlk], ?_, ?_⟩
          · intro b' hb'
            rw [← Option.some.inj hb']
            exact hblt
          · exact ⟨_, (Option.some.inj h).symm, rfl, rfl, rfl, rfl, rfl, rfl⟩
        · rw [Bool.not_eq_true] at hblt
          rw [if_neg (by simp [hblt])] at h
          left
          exact ⟨(Option.some.inj h).symm, Or.inr ⟨b, rfl, hblt⟩⟩

theorem EntryWF_mono {gs : GraphService} {s : String}
    {b b' : List (String × Flt)} {e : Entry}
    (hdom : ∀ k, (b.lookup k).isSome = true → (b'.lookup k).isSome = true)
    (h : EntryWF gs s b e) : EntryWF gs s b' e :=
  ⟨h.1, h.2.1, h.2.2.1, h.2.2.2.1, h.2.2.2.2.1,
    fun x hx => hdom x (h.2.2.2.2.2.1 x hx), h.2.2.2.2.2.2⟩

theorem stepConn_pq_sub {gs : GraphService} {obj : String} {e : Entry}
    {nm : String} {st st' : ExpSt} {c : Conn}
    (h : stepConn gs obj e nm st c = some st') : ∀ x ∈ st.pq, x ∈ st'.pq := by
  rcases stepConn_spec h with ⟨heq, _⟩ | ⟨_, _, _, nent, hst', _⟩
  · rw [heq]
    exact fun x hx => hx
  · rw [hst']
    intro x hx
    simp [hx]

theorem stepConn_bestle {gs : GraphService} {obj : String} {e : Entry}
    {nm : String} {st st' : ExpSt} {c : Conn}
    (h : stepConn gs obj e nm st c = some st') : BestLe st'.best st.best := by
  rcases stepConn_spec h with ⟨heq, _⟩ | ⟨_, _, hguard, nent, hst', _⟩
  · rw [heq]
    exact BestLe.refl _
  · rw [hst']
    intro k v hv
    by_cases hk : k = c.to_stop_id
    · subst hk
      refine ⟨prioOf gs obj e c, lookup_cons_self, ?_⟩
      exact le_of_lt (Flt.blt_iff.mp (hguard v hv))
    · refine ⟨v, ?_, le_refl _⟩
      rw [lookup_cons_ne hk]
      exact hv

theorem stepConn_dom {gs : GraphService} {obj : String} {e : Entry}
    {nm : String} {st st' : ExpSt} {c : Conn}
    (h : stepConn gs obj e nm st c = some st') :
    ∀ k, (st.best.lookup k).isSome = true → (st'.best.lookup k).isSome = true :=
  fun _ hk => (stepConn_bestle h).isSome hk

theorem stepConn_wf {gs : GraphService} {s obj : String} {e : Entry}
    {nm : String} {st st' : ExpSt} {c : Conn} {stO : Stop}
    (h : stepConn gs obj e nm st c = some st')
    (hstO : gs.stops_cache.lookup e.stop = some stO)
    (hcO : c ∈ stO.connections)
    (he : EntryWF gs s st.best e)
    (hall : ∀ x ∈ st.pq, EntryWF gs s st.best x) :
    ∀ x ∈ st'.pq, EntryWF gs s st'.best x := by
  rcases stepConn_spec h with ⟨heq, _⟩ |
    ⟨hmem, _, _, nent, hst', hstop, _, hpath, htr, _, _⟩
  · rw [heq]
    exact hall
  · have hdom : ∀ k, (st.best.lookup k).isSome = true →
        ((((c.to_stop_id, prioOf gs obj e c) :: st.best)).lookup k).isSome = true := by
      intro k hk
      by_cases hkc : k = c.to_stop_id
      · subst hkc
        simp [lookup_cons_self]
      · rw [lookup_cons_ne hkc]
        exact hk
    rw [hst']
    intro x hx
    simp only [List.mem_append, List.mem_singleton] at hx
    rcases hx with hx | hx
    · exact EntryWF_mono hdom (hall x hx)
    · subst hx
      obtain ⟨hne, hhead, hlast, hnodup, hchain, hdomp, htrb⟩ := he
      rcases hp : e.path with _ | ⟨a, tl⟩
      · exact absurd hp hne
      refine ⟨?_, ?_, ?_, ?_, ?_, ?_, ?_⟩
      · rw [hpath]
        simp
      · rw [hpath, hp]
        rw [hp] at hhead
        simpa using hhead
      · rw [hpath, hstop]
        exact List.getLast?_concat _
      · rw [hpath]
        rw [List.nodup_append]
        exact ⟨hnodup, List.nodup_singleton _, by
          intro a' ha' hb
          simp at hb
          rw [hb] at ha'
          exact hmem ha'⟩
      · rw [hpath]
        rw [ChainOk, List.chain'_append]
        refine ⟨hchain, List.chain'_singleton _, ?_⟩
        intro x hx y hy
        simp at hy
        rw [hlast] at hx
        simp at hx
        subst hx
        subst hy
        exact ⟨stO, hstO, c, hcO, rfl⟩
      · intro x hx
        rw [hpath] at hx
        simp only [List.mem_append, List.mem_singleton] at hx
        rcases hx with hx | hx
        · exact hdom x (hdomp x hx)
        · rw [hx]
          simp [lookup_cons_self]
      · rw [hpath, htr]
        have hlen : ((e.path ++ [c.to_stop_id]).length : Int) = (e.path.length : Int) + 1 := by
          simp
        rw [hlen]
        unfold newTransfersOf
        by_cases hf : transferFlagOf e c = true
        · rw [if_pos hf]
          omega
        · rw [if_neg hf]
          omega

theorem stepConn_bestdom {gs : GraphService} {s obj : String} {e : Entry}
    {nm : String} {st st' : ExpSt} {c : Conn}
    (h : stepConn gs obj e nm st c = some st')
    (hd : BestDom gs s st.best) : BestDom gs s st'.best := by
  rcases stepConn_spec h with ⟨heq, _⟩ | ⟨_, hlk, _, nent, hst', _⟩
  · rw [heq]
    exact hd
  · rw [hst']
    intro k hk
    by_cases hkc : k = c.to_stop_id
    · subst hkc
      right
      obtain ⟨stN, hstN⟩ := Option.isSome_iff_exists.mp hlk
      have := lookup_mem_pair hstN
      exact List.mem_map.mpr ⟨(c.to_stop_id, stN), this, rfl⟩
    · rw [lookup_cons_ne hkc] at hk
      exact hd k hk

theorem stepConn_woc {gs : GraphService} {t obj : String} {e : Entry}
    {nm : String} {st st' : ExpSt} {c : Conn}
    (h : stepConn gs obj e nm st c = some st')
    (hw : ∀ k v, st.best.lookup k = some v →
      (∃ x ∈ st.pq, x.stop = k ∧ x.cost = v) ∨
      (k ≠ t ∧ ∀ w ∈ neighborsOf gs k, (st.best.lookup w).isSome = true) ∨
      k = e.stop) :
    ∀ k v, st'.best.lookup k = some v →
      (∃ x ∈ st'.pq, x.stop = k ∧ x.cost = v) ∨
      (k ≠ t ∧ ∀ w ∈ neighborsOf gs k, (st'.best.lookup w).isSome = true) ∨
      k = e.stop := by
  rcases stepConn_spec h with ⟨heq, _⟩ | ⟨_, _, _, nent, hst', hstop, hcost, _⟩
  · rw [heq]
    exact hw
  · have hdom : ∀ k, (st.best.lookup k).isSome = true →
        ((((c.to_stop_id, prioOf gs obj e c) :: st.best)).lookup k).isSome = true := by
      intro k hk
      by_cases hkc : k = c.to_stop_id
      · subst hkc
        simp [lookup_cons_self]
      · rw [lookup_cons_ne hkc]
        exact hk
    rw [hst']
    intro k v hv
    by_cases hkc : k = c.to_stop_id
    · subst hkc
      rw [lookup_cons_self] at hv
      left
      exact ⟨nent, by simp, hstop, by rw [hcost, ← Option.some.inj hv]⟩
    · rw [lookup_cons_ne hkc] at hv
      rcases hw k v hv with hwit | hcl | hu
      · obtain ⟨x, hx, hxs, hxc⟩ := hwit
        exact Or.inl ⟨x, by simp [hx], hxs, hxc⟩
      · exact Or.inr (Or.inl ⟨hcl.1, fun w hw' => hdom w (hcl.2 w hw')⟩)
      · exact Or.inr (Or.inr hu)

/-! ## Fold-level preservation over a whole expansion -/

theorem expandConns_pq_sub {gs : GraphService} {obj : String} {e : Entry}
    {nm : String} : ∀ {cs : List Conn} {st st' : ExpSt},
    expandConns gs obj e nm cs st = some st' → ∀ x ∈ st.pq, x ∈ st'.pq := by
  intro cs
  induction cs with
  | nil =>
    intro st st' h
    rw [expandConns] at h
    rw [Option.some.inj h]
    exact fun x hx => hx
  | cons c cs ih =>
    intro st st' h
    rw [expandConns] at h
    rcases hstep : stepConn gs obj e nm st c with _ | st₁
    · rw [hstep] at h
      exact absurd h (by simp)
    · rw [hstep] at h
      intro x hx
      exact ih h x (stepConn_pq_sub hstep x hx)

theorem expandConns_bestle {gs : GraphService} {obj : String} {e : Entry}
    {nm : String} : ∀ {cs : List Conn} {st st' : ExpSt},
    expandConns gs obj e nm cs st = some st' → BestLe st'.best st.best := by
  intro cs
  induction cs with
  | nil =>
    intro st st' h
    rw [expandConns] at h
    rw [Option.some.inj h]
    exact BestLe.refl _
  | cons c cs ih =>
    intro st st' h
    rw [expandConns] at h
    rcases hstep : stepConn gs obj e nm st c with _ | st₁
    · rw [hstep] at h
      exact absurd h (by simp)
    · rw [hstep] at h
      exact BestLe.trans (ih h) (stepConn_bestle hstep)

theorem expandConns_wf {gs : GraphService} {s obj : String} {e : Entry}
    {nm : String} {stO : Stop}
    (hstO : gs.stops_cache.lookup e.stop = some stO) :
    ∀ {cs : List Conn} {st st' : ExpSt},
    expandConns gs obj e nm cs st = some st' →
    (∀ c ∈ cs, c ∈ stO.connections) →
    EntryWF gs s st.best e →
    (∀ x ∈ st.pq, EntryWF gs s st.best x) →
    ∀ x ∈ st'.pq, EntryWF gs s st'.best x := by
  intro cs
  induction cs with
  | nil =>
    intro st st' h _ _ hall
    rw [expandConns] at h
    rw [Option.some.inj h] at hall
    exact hall
  | cons c cs ih =>
    intro st st' h hmem he hall
    rw [expandConns] at h
    rcases hstep : stepConn gs obj e nm st c with _ | st₁
    · rw [hstep] at h
      exact absurd h (by simp)
    · rw [hstep] at h
      have hdom := stepConn_dom hstep
      exact ih h (fun c' hc' => hmem c' (by simp [hc']))
        (EntryWF_mono hdom he)
        (stepConn_wf hstep hstO (hmem c (by simp)) he hall)

theorem expandConns_bestdom {gs : GraphService} {s obj : String} {e : Entry}
    {nm : String} : ∀ {cs : List Conn} {st st' : ExpSt},
    expandConns gs obj e nm cs st = some st' →
    BestDom gs s st.best → BestDom gs s st'.best := by
  intro cs
  induction cs with
  | nil =>
    intro st st' h hd
    rw [expandConns] at h
    rw [Option.some.inj h] at hd
    exact hd
  | cons c cs ih =>
    intro st st' h hd
    rw [expandConns] at h
    rcases hstep : stepConn gs obj e nm st c with _ | st₁
    · rw [hstep] at h
      exact absurd h (by simp)
    · rw [hstep] at h
      exact ih h (stepConn_bestdom hstep hd)

theorem expandConns_targets {gs : GraphService} {obj : String} {e : Entry}
    {nm : String} : ∀ {cs : List Conn} {st st' : ExpSt},
    expandConns gs obj e nm cs st = some st' →
    (∀ x ∈ e.path, (st.best.lookup x).isSome = true) →
    ∀ c ∈ cs, (st'.best.lookup c.to_stop_id).isSome = true := by
  intro cs
  induction cs with
  | nil =>
    intro st st' _ _ c hc
    simp at hc
  | cons c cs ih =>
    intro st st' h hpd c' hc'
    rw [expandConns] at h
    rcases hstep : stepConn gs obj e nm st c with _ | st₁
    · rw [hstep] at h
      exact absurd h (by simp)
    · rw [hstep] at h
      rw [List.mem_cons] at hc'
      rcases hc' with hc' | hc'
      · subst hc'
        rcases stepConn_spec hstep with ⟨heq, hside⟩ | ⟨_, _, _, nent, hst', _⟩
        · rcases hside with hmem | ⟨b, hb, _⟩
          · have : (st.best.lookup c'.to_stop_id).isSome = true := hpd _ hmem
            rw [heq] at h
            exact (expandConns_bestle h).isSome this
          · have : (st.best.lookup c'.to_stop_id).isSome = true := by simp [hb]
            rw [heq] at h
            exact (expandConns_bestle h).isSome this
        · have : (st₁.best.lookup c'.to_stop_id).isSome = true := by
            rw [hst']
            simp [lookup_cons_self]
          exact (expandConns_bestle h).isSome this
      · exact ih h (fun x hx => stepConn_dom hstep x (hpd x hx)) c' hc'

theorem expandConns_woc {gs : GraphService} {t obj : String} {e : Entry}
    {nm : String} : ∀ {cs : List Conn} {st st' : ExpSt},
    expandConns gs obj e nm cs st = some st' →
    (∀ k v, st.best.lookup k = some v →
      (∃ x ∈ st.pq, x.stop = k ∧ x.cost = v) ∨
      (k ≠ t ∧ ∀ w ∈ neighborsOf gs k, (st.best.lookup w).isSome = true) ∨
      k = e.stop) →
    ∀ k v, st'.best.lookup k = some v →
      (∃ x ∈ st'.pq, x.stop = k ∧ x.cost = v) ∨
      (k ≠ t ∧ ∀ w ∈ neighborsOf gs k, (st'.best.lookup w).isSome = true) ∨
      k = e.stop := by
  intro cs
  induction cs with
  | nil =>
    intro st st' h hw
    rw [expandConns] at h
    rw [Option.some.inj h] at hw
    exact hw
  | cons c cs ih =>
    intro st st' h hw
    rw [expandConns] at h
    rcases hstep : stepConn gs obj e nm st c with _ | st₁
    · rw [hstep] at h
      exact absurd h (by simp)
    · rw [hstep] at h
      exact ih h (stepConn_woc hstep hw)

theorem expandConns_key {gs : GraphService} {e : Entry} {nm : String} :
    ∀ {cs : List Conn} {st st' : ExpSt},
    expandConns gs "transfers" e nm cs st = some st' →
    (∀ x ∈ st.pq, KeyInv x) →
    ∀ x ∈ st'.pq, KeyInv x := by
  intro cs
  induction cs with
  | nil =>
    intro st st' h hall
    rw [expandConns] at h
    rw [Option.some.inj h] at hall
    exact hall
  | cons c cs ih =>
    intro st st' h hall
    rw [expandConns] at h
    rcases hstep : stepConn gs "transfers" e nm st c with _ | st₁
    · rw [hstep] at h
      exact absurd h (by simp)
    · rw [hstep] at h
      refine ih h ?_
      rcases stepConn_spec hstep with ⟨heq, _⟩ |
        ⟨_, _, _, nent, hst', _, hcost, _, htr, htime, _⟩
      · rw [heq]
        exact hall
      · rw [hst']
        intro x hx
        simp only [List.mem_append, List.mem_singleton] at hx
        rcases hx with hx | hx
        · exact hall x hx
        · subst hx
          unfold KeyInv
          rw [hcost, htr, htime]
          rfl

theorem stepConn_ne_none {gs : GraphService} {obj : String} {e : Entry}
    {nm : String} {st : ExpSt} {c : Conn}
    (hlk : (gs.stops_cache.lookup c.to_stop_id).isSome = true) :
    stepConn gs obj e nm st c ≠ none := by
  unfold stepConn
  dsimp only
  by_cases hmem : c.to_stop_id ∈ e.path
  · rw [if_pos hmem]
    simp
  · rw [if_neg hmem]
    obtain ⟨ns, hns⟩ := Option.isSome_iff_exists.mp hlk
    rw [hns]
    dsimp only
    split <;> simp

theorem expandConns_ne_none {gs : GraphService} {obj : String} {e : Entry}
    {nm : String} : ∀ {cs : List Conn} {st : ExpSt},
    (∀ c ∈ cs, (gs.stops_cache.lookup c.to_stop_id).isSome = true) →
    expandConns gs obj e nm cs st ≠ none := by
  intro cs
  induction cs with
  | nil =>
    intro st _
    rw [expandConns]
    simp
  | cons c cs ih =>
    intro st hall
    rw [expandConns]
    rcases hstep : stepConn gs obj e nm st c with _ | st₁
    · exact absurd hstep (stepConn_ne_none (hall c (by simp)))
    · exact ih (fun c' hc' => hall c' (by simp [hc']))

theorem prioOf_initial {gs : GraphService} {e : Entry} {c : Conn}
    (hseg : e.segments = []) (htime : e.total_time = 0) (htr : e.transfers = 0) :
    prioOf gs "transfers" e c = Flt.ofInt (directKeyTransfers gs c) := by
  unfold prioOf priorityOf newTimeOf newTransfersOf boardingPenaltyOf transferFlagOf
    directKeyTransfers
  rw [hseg, htime, htr]
  rw [if_neg (by decide), if_neg (by decide)]
  simp only [List.getLast?_nil]
  have hz : (if false = true then (1 : Int) else 0) = 0 := by simp
  rw [hz]
  congr 1
  omega

theorem expandConns_direct_bound {gs : GraphService} {t : String} {e : Entry}
    {nm : String} (hseg : e.segments = []) (htime : e.total_time = 0)
    (htr : e.transfers = 0) (hnp : t ∉ e.path) :
    ∀ {cs : List Conn} {st st' : ExpSt},
    expandConns gs "transfers" e nm cs st = some st' →
    ∀ c ∈ cs, c.to_stop_id = t →
    ∃ b, st'.best.lookup t = some b ∧
      b.toRat ≤ ((directKeyTransfers gs c : Int) : ℚ) := by
  intro cs
  induction cs with
  | nil =>
    intro st st' _ c hc
    simp at hc
  | cons c₀ cs ih =>
    intro st st' h c hc hct
    rw [expandConns] at h
    rcases hstep : stepConn gs "transfers" e nm st c₀ with _ | st₁
    · rw [hstep] at h
      exact absurd h (by simp)
    · rw [hstep] at h
      rw [List.mem_cons] at hc
      rcases hc with hc | hc
      · subst hc
        have hprio : prioOf gs "transfers" e c = Flt.ofInt (directKeyTransfers gs c) :=
          prioOf_initial hseg htime htr
        rcases stepConn_spec hstep with ⟨heq, hside⟩ |
          ⟨_, _, _, nent, hst', _⟩
        · rcases hside with hmem | ⟨b, hb, hblt⟩
          · rw [hct] at hmem
            exact absurd hmem hnp
          · have hble : b.toRat ≤ ((directKeyTransfers gs c : Int) : ℚ) := by
              have := Flt.blt_eq_false_iff.mp hblt
              rw [hprio, Flt.toRat_ofInt] at this
              exact this
            rw [heq] at h
            rw [hct] at hb
            obtain ⟨b', hb', hle'⟩ := expandConns_bestle h t b hb
            exact ⟨b', hb', le_trans hle' hble⟩
        · have hb : st₁.best.lookup t = some (prioOf gs "transfers" e c) := by
            rw [hst']
            rw [← hct]
            exact lookup_cons_self
          obtain ⟨b', hb', hle'⟩ := expandConns_bestle h t _ hb
          refine ⟨b', hb', le_trans hle' ?_⟩
          rw [hprio, Flt.toRat_ofInt]
      · exact ih h c hc hct

/-! ## Loop-level lemmas -/

theorem nodup_length_le {α : Type} [DecidableEq α] {l m : List α}
    (hn : l.Nodup) (hsub : ∀ x ∈ l, x ∈ m) : l.length ≤ m.length := by
  calc l.length = l.toFinset.card := (List.toFinset_card_of_nodup hn).symm
    _ ≤ m.toFinset.card := Finset.card_le_card (by
        intro x hx
        rw [List.mem_toFinset] at hx
        rw [List.mem_toFinset]
        exact hsub x hx)
    _ ≤ m.length := List.toFinset_card_le m

theorem chain_mem_closed {gs : GraphService} {t : String}
    {best : List (String × Flt)}
    (hcl : ∀ kk, (best.lookup kk).isSome = true →
      kk ≠ t ∧ ∀ w ∈ neighborsOf gs kk, (best.lookup w).isSome = true) :
    ∀ p : List String, ChainOk gs p → ∀ a, p.head? = some a →
    (best.lookup a).isSome = true → ∀ x ∈ p, (best.lookup x).isSome = true := by
  intro p
  induction p with
  | nil =>
    intro _ a _ _ x hx
    simp at hx
  | cons a tl ih =>
    intro hchain b hb hbdom x hx
    have hab : a = b := by
      simpa using hb
    subst hab
    rw [List.mem_cons] at hx
    rcases hx with hx | hx
    · rw [hx]
      exact hbdom
    · rcases tl with _ | ⟨c, tl'⟩
      · simp at hx
      · have hedge : EdgeOk gs a c := (List.chain'_cons.mp hchain).1
        have hchain' : ChainOk gs (c :: tl') := (List.chain'_cons.mp hchain).2
        have hcdom : (best.lookup c).isSome = true := by
          obtain ⟨stA, hlkA, cc, hcc, hcct⟩ := hedge
          refine (hcl a hbdom).2 c ?_
          unfold neighborsOf
          rw [hlkA]
          exact List.mem_map.mpr ⟨cc, hcc, hcct⟩
        exact ih hchain' c rfl hcdom x hx

theorem dloop_no_err {gs : GraphService} {t obj : String} {k : Int}
    (hc : ClosedGraph gs) :
    ∀ (fuel : Nat) (pq : List Entry) (best : List (String × Flt)) (ctr : Nat),
    dloop gs t obj k fuel pq best ctr ≠ DRes.err := by
  intro fuel
  induction fuel with
  | zero =>
    intro pq best ctr
    rw [dloop]
    simp
  | succ n ih =>
    intro pq best ctr
    rw [dloop]
    rcases hpop : popMin pq with _ | ⟨e, rest⟩
    · simp
    · dsimp only
      by_cases hskip : (match best.lookup e.stop with
          | some b => Flt.blt b e.cost
          | none => false) = true
      · rw [if_pos hskip]
        exact ih rest best ctr
      · rw [if_neg hskip]
        by_cases hdest : e.stop = t
        · rw [if_pos hdest]
          simp
        · rw [if_neg hdest]
          by_cases hpr : k ≤ e.transfers
          · rw [if_pos hpr]
            exact ih rest best ctr
          · rw [if_neg hpr]
            rcases hlk : gs.stops_cache.lookup e.stop with _ | stObj
            · exact ih rest best ctr
            · dsimp only
              rcases hexp : expandConns gs obj e stObj.name stObj.connections
                  ⟨rest, best, ctr⟩ with _ | st₁
              · exfalso
                refine expandConns_ne_none ?_ hexp
                intro c hcc
                exact hc (e.stop, stObj) (lookup_mem_pair hlk) c hcc
              · exact ih st₁.pq st₁.best st₁.ctr

theorem dloop_sound {gs : GraphService} {s t obj : String} {k : Int} :
    ∀ (fuel : Nat) (pq : List Entry) (best : List (String × Flt)) (ctr : Nat)
      (r : OptimizedRoute),
    (∀ x ∈ pq, EntryWF gs s best x) → BestDom gs s best →
    dloop gs t obj k fuel pq best ctr = DRes.found r →
    r.path.head? = some s ∧ r.path.getLast? = some t ∧ r.path.Nodup ∧
    ChainOk gs r.path ∧ (∀ x ∈ r.path, x = s ∨ x ∈ gs.stops_cache.map Prod.fst) := by
  intro fuel
  induction fuel with
  | zero =>
    intro pq best ctr r _ _ hres
    rw [dloop] at hres
    exact absurd hres (by simp)
  | succ n ih =>
    intro pq best ctr r hwf hbd hres
    rw [dloop] at hres
    rcases hpop : popMin pq with _ | ⟨e, rest⟩
    · rw [hpop] at hres
      exact absurd hres (by simp)
    · rw [hpop] at hres
      dsimp only at hres
      by_cases hskip : (match best.lookup e.stop with
          | some b => Flt.blt b e.cost
          | none => false) = true
      · rw [if_pos hskip] at hres
        exact ih rest best ctr r (fun x hx => hwf x (popMin_rest_sub hpop x hx)) hbd hres
      · rw [if_neg hskip] at hres
        by_cases hdest : e.stop = t
        · rw [if_pos hdest] at hres
          simp only [DRes.found.injEq] at hres
          subst hres
          obtain ⟨hne, hhead, hlast, hnodup, hchain, hdomp, _⟩ :=
            hwf e (popMin_mem hpop)
          refine ⟨hhead, ?_, hnodup, hchain, ?_⟩
          · rw [← hdest]
            exact hlast
          · intro x hx
            exact hbd x (hdomp x hx)
        · rw [if_neg hdest] at hres
          by_cases hpr : k ≤ e.transfers
          · rw [if_pos hpr] at hres
            exact ih rest best ctr r (fun x hx => hwf x (popMin_rest_sub hpop x hx)) hbd hres
          · rw [if_neg hpr] at hres
            rcases hlk : gs.stops_cache.lookup e.stop with _ | stObj
            · rw [hlk] at hres
              exact ih rest best ctr r (fun x hx => hwf x (popMin_rest_sub hpop x hx)) hbd hres
            · rw [hlk] at hres
              dsimp only at hres
              rcases hexp : expandConns gs obj e stObj.name stObj.connections
                  ⟨rest, best, ctr⟩ with _ | st₁
              · rw [hexp] at hres
                exact absurd hres (by simp)
              · rw [hexp] at hres
                refine ih st₁.pq st₁.best st₁.ctr r ?_ ?_ hres
                · exact expandConns_wf hlk hexp (fun c hcc => hcc)
                    (hwf e (popMin_mem hpop))
                    (fun x hx => hwf x (popMin_rest_sub hpop x hx))
                · exact expandConns_bestdom hexp hbd

theorem dloop_keyT_bound {gs : GraphService} {s t : String} {k K : Int} :
    ∀ (fuel : Nat) (pq : List Entry) (best : List (String × Flt)) (ctr : Nat)
      (r : OptimizedRoute),
    (∀ x ∈ pq, EntryWF gs s best x) →
    (∀ x ∈ pq, KeyInv x) →
    (∃ b, best.lookup t = some b ∧ b.toRat ≤ (K : ℚ)) →
    dloop gs t "transfers" k fuel pq best ctr = DRes.found r →
    ∃ time, r.total_time = some time ∧ r.transfers * 100 + time ≤ K := by
  intro fuel
  induction fuel with
  | zero =>
    intro pq best ctr r _ _ _ hres
    rw [dloop] at hres
    exact absurd hres (by simp)
  | succ n ih =>
    intro pq best ctr r hwf hkey hbnd hres
    rw [dloop] at hres
    rcases hpop : popMin pq with _ | ⟨e, rest⟩
    · rw [hpop] at hres
      exact absurd hres (by simp)
    · rw [hpop] at hres
      dsimp only at hres
      by_cases hskip : (match best.lookup e.stop with
          | some b => Flt.blt b e.cost
          | none => false) = true
      · rw [if_pos hskip] at hres
        exact ih rest best ctr r (fun x hx => hwf x (popMin_rest_sub hpop x hx))
          (fun x hx => hkey x (popMin_rest_sub hpop x hx)) hbnd hres
      · rw [if_neg hskip] at hres
        by_cases hdest : e.stop = t
        · rw [if_pos hdest] at hres
          simp only [DRes.found.injEq] at hres
          subst hres
          obtain ⟨b, hb, hbK⟩ := hbnd
          rw [hdest, hb] at hskip
          have hble : e.cost.toRat ≤ b.toRat := by
            rcases hblt : Flt.blt b e.cost with _ | _
            · exact Flt.blt_eq_false_iff.mp hblt
            · exact absurd hblt (by simpa using hskip)
          have hkeyE := hkey e (popMin_mem hpop)
          unfold KeyInv at hkeyE
          rw [hkeyE, Flt.toRat_ofInt] at hble
          refine ⟨e.total_time, rfl, ?_⟩
          have : ((e.transfers * 100 + e.total_time : Int) : ℚ) ≤ (K : ℚ) :=
            le_trans hble hbK
          exact_mod_cast this
        · rw [if_neg hdest] at hres
          by_cases hpr : k ≤ e.transfers
          · rw [if_pos hpr] at hres
            exact ih rest best ctr r (fun x hx => hwf x (popMin_rest_sub hpop x hx))
              (fun x hx => hkey x (popMin_rest_sub hpop x hx)) hbnd hres
          · rw [if_neg hpr] at hres
            rcases hlk : gs.stops_cache.lookup e.stop with _ | stObj
            · rw [hlk] at hres
              exact ih rest best ctr r (fun x hx => hwf x (popMin_rest_sub hpop x hx))
                (fun x hx => hkey x (popMin_rest_sub hpop x hx)) hbnd hres
            · rw [hlk] at hres
              dsimp only at hres
              rcases hexp : expandConns gs "transfers" e stObj.name stObj.connections
                  ⟨rest, best, ctr⟩ with _ | st₁
              · rw [hexp] at hres
                exact absurd hres (by simp)
              · rw [hexp] at hres
                refine ih st₁.pq st₁.best st₁.ctr r ?_ ?_ ?_ hres
                · exact expandConns_wf hlk hexp (fun c hcc => hcc)
                    (hwf e (popMin_mem hpop))
                    (fun x hx => hwf x (popMin_rest_sub hpop x hx))
                · exact expandConns_key hexp
                    (fun x hx => hkey x (popMin_rest_sub hpop x hx))
                · obtain ⟨b, hb, hbK⟩ := hbnd
                  obtain ⟨b', hb', hle'⟩ := expandConns_bestle hexp t b hb
                  exact ⟨b', hb', le_trans hle' hbK⟩

theorem dloop_complete {gs : GraphService} {s t obj : String} {k : Int}
    (hk : (gs.stops_cache.length : Int) + 1 ≤ k) :
    ∀ (fuel : Nat) (pq : List Entry) (best : List (String × Flt)) (ctr : Nat),
    (∀ x ∈ pq, EntryWF gs s best x) →
    BestDom gs s best →
    (best.lookup s).isSome = true →
    WOC gs t pq best →
    dloop gs t obj k fuel pq best ctr = DRes.noRoute →
    ∀ p, ChainOk gs p → p.head? = some s → p.getLast? = some t → False := by
  intro fuel
  induction fuel with
  | zero =>
    intro pq best ctr _ _ _ _ hres
    rw [dloop] at hres
    exact absurd hres (by simp)
  | succ n ih =>
    intro pq best ctr hwf hbd hsdom hwoc hres
    rw [dloop] at hres
    rcases hpop : popMin pq with _ | ⟨e, rest⟩
    · rw [hpop] at hres
      have hpq : pq = [] := popMin_eq_none.mp hpop
      -- the queue is exhausted: every recorded stop is closed and not the target
      have hcl : ∀ kk, (best.lookup kk).isSome = true →
          kk ≠ t ∧ ∀ w ∈ neighborsOf gs kk, (best.lookup w).isSome = true := by
        intro kk hkk
        obtain ⟨v, hv⟩ := Option.isSome_iff_exists.mp hkk
        rcases hwoc kk v hv with ⟨x, hx, _⟩ | hclosed
        · rw [hpq] at hx
          simp at hx
        · exact hclosed
      intro p hchain hhead hlast
      have hmemall := chain_mem_closed hcl p hchain s hhead hsdom
      have htmem : t ∈ p := List.mem_of_getLast?_eq_some hlast
      exact (hcl t (hmemall t htmem)).1 rfl
    · rw [hpop] at hres
      dsimp only at hres
      by_cases hskip : (match best.lookup e.stop with
          | some b => Flt.blt b e.cost
          | none => false) = true
      · rw [if_pos hskip] at hres
        have hb₀ : ∃ b₀, best.lookup e.stop = some b₀ ∧ Flt.blt b₀ e.cost = true := by
          rcases hlkb : best.lookup e.stop with _ | b₀
          · rw [hlkb] at hskip
            simp at hskip
          · rw [hlkb] at hskip
            exact ⟨b₀, rfl, hskip⟩
        obtain ⟨b₀, hb₀l, hb₀lt⟩ := hb₀
        refine ih rest best ctr
          (fun x hx => hwf x (popMin_rest_sub hpop x hx)) hbd hsdom ?_ hres
        intro kk v hv
        rcases hwoc kk v hv with ⟨x, hx, hxs, hxc⟩ | hclosed
        · rcases popMin_cover hpop x hx with hxe | hxr
          · exfalso
            subst hxe
            rw [hxs, hv] at hb₀l
            have hbv : b₀ = v := (Option.some.inj hb₀l).symm
            rw [hbv, ← hxc] at hb₀lt
            rw [Flt.blt_self] at hb₀lt
            exact absurd hb₀lt (by simp)
          · exact Or.inl ⟨x, hxr, hxs, hxc⟩
        · exact Or.inr hclosed
      · rw [if_neg hskip] at hres
        by_cases hdest : e.stop = t
        · rw [if_pos hdest] at hres
          exact absurd hres (by simp)
        · rw [if_neg hdest] at hres
          by_cases hpr : k ≤ e.transfers
          · -- the transfer prune cannot fire when the bound exceeds the stop count
            exfalso
            obtain ⟨hne, _, hlast, hnodup, _, hdomp, htrb⟩ := hwf e (popMin_mem hpop)
            have hsub : ∀ x ∈ e.path, x ∈ s :: gs.stops_cache.map Prod.fst := by
              intro x hx
              rcases hbd x (hdomp x hx) with hx' | hx'
              · rw [hx']
                simp
              · simp [hx']
            have hlen : e.path.length ≤ (s :: gs.stops_cache.map Prod.fst).length :=
              nodup_length_le hnodup hsub
            have hlen' : (e.path.length : Int) ≤ (gs.stops_cache.length : Int) + 1 := by
              have : (s :: gs.stops_cache.map Prod.fst).length =
                  gs.stops_cache.length + 1 := by
                simp
              rw [this] at hlen
              exact_mod_cast hlen
            omega
          · rw [if_neg hpr] at hres
            rcases hlk : gs.stops_cache.lookup e.stop with _ | stObj
            · -- the popped stop is unknown to the cache: it must be the start
              have hedom : (best.lookup e.stop).isSome = true := by
                obtain ⟨_, _, hlast, _, _, hdomp, _⟩ := hwf e (popMin_mem hpop)
                exact hdomp e.stop (List.mem_of_getLast?_eq_some hlast)
              have hes : e.stop = s := by
                rcases hbd e.stop hedom with h' | h'
                · exact h'
                · exact absurd (mem_keys_lookup_isSome h') (by simp [hlk])
              intro p hchain hhead hlast
              rcases p with _ | ⟨a, tl⟩
              · simp at hhead
              · have ha : a = s := by
                  simpa using hhead
                subst ha
                rcases tl with _ | ⟨b, tl'⟩
                · have : a = t := by
                    simpa using hlast
                  rw [← hes] at this
                  exact hdest (by rw [← this])
                · have hedge : EdgeOk gs a b := (List.chain'_cons.mp hchain).1
                  obtain ⟨stA, hlkA, _⟩ := hedge
                  rw [← hes] at hlkA
                  rw [hlk] at hlkA
                  exact absurd hlkA (by simp)
            · rw [hlk] at hres
              dsimp only at hres
              rcases hexp : expandConns gs obj e stObj.name stObj.connections
                  ⟨rest, best, ctr⟩ with _ | st₁
              · rw [hexp] at hres
                exact absurd hres (by simp)
              · rw [hexp] at hres
                obtain ⟨_, _, _, _, _, hdomp, _⟩ := hwf e (popMin_mem hpop)
                refine ih st₁.pq st₁.best st₁.ctr ?_ ?_ ?_ ?_ hres
                · exact expandConns_wf hlk hexp (fun c hcc => hcc)
                    (hwf e (popMin_mem hpop))
                    (fun x hx => hwf x (popMin_rest_sub hpop x hx))
                · exact expandConns_bestdom hexp hbd
                · exact (expandConns_bestle hexp).isSome hsdom
                · -- re-establish witness-or-closed after the expansion
                  have hpre : ∀ kk v, best.lookup kk = some v →
                      (∃ x ∈ rest, x.stop = kk ∧ x.cost = v) ∨
                      (kk ≠ t ∧ ∀ w ∈ neighborsOf gs kk,
                        (best.lookup w).isSome = true) ∨
                      kk = e.stop := by
                    intro kk v hv
                    rcases hwoc kk v hv with ⟨x, hx, hxs, hxc⟩ | hclosed
                    · rcases popMin_cover hpop x hx with hxe | hxr
                      · subst hxe
                        exact Or.inr (Or.inr hxs.symm)
                      · exact Or.inl ⟨x, hxr, hxs, hxc⟩
                    · exact Or.inr (Or.inl hclosed)
                  have hpost := expandConns_woc hexp hpre
                  have htargets := expandConns_targets hexp hdomp
                  intro kk v hv
                  rcases hpost kk v hv with h' | h' | h'
                  · exact Or.inl h'
                  · exact Or.inr h'
                  · subst h'
                    refine Or.inr ⟨hdest, ?_⟩
                    intro w hw
                    unfold neighborsOf at hw
                    rw [hlk] at hw
                    obtain ⟨c, hc, hct⟩ := List.mem_map.mp hw
                    rw [← hct]
                    exact htargets c hc

/-! ## Reachability lemmas -/

theorem self_mem_reachN (gs : GraphService) (s : String) :
    ∀ n, s ∈ reachN gs n s := by
  intro n
  induction n with
  | zero => simp [reachN]
  | succ m ih =>
    rw [reachN, reachStep]
    exact List.mem_append.mpr (Or.inl ih)

theorem reachN_mono_succ {gs : GraphService} {s x : String} {n : Nat}
    (h : x ∈ reachN gs n s) : x ∈ reachN gs (n + 1) s := by
  rw [reachN, reachStep]
  exact List.mem_append.mpr (Or.inl h)

theorem reachN_mono {gs : GraphService} {s x : String} {m n : Nat} (hmn : m ≤ n)
    (h : x ∈ reachN gs m s) : x ∈ reachN gs n s := by
  induction n with
  | zero =>
    have : m = 0 := Nat.le_zero.mp hmn
    rw [← this]
    exact h
  | succ l ih =>
    by_cases hml : m ≤ l
    · exact reachN_mono_succ (ih hml)
    · have : m = l + 1 := by omega
      rw [← this]
      exact h

theorem edge_mem_reachStep {gs : GraphService} {S : List String} {u v : String}
    (hu : u ∈ S) (he : EdgeOk gs u v) : v ∈ reachStep gs S := by
  rw [reachStep]
  refine List.mem_append.mpr (Or.inr ?_)
  rw [List.mem_flatMap]
  refine ⟨u, hu, ?_⟩
  obtain ⟨st, hst, c, hc, hct⟩ := he
  unfold neighborsOf
  rw [hst]
  exact List.mem_map.mpr ⟨c, hc, hct⟩

theorem chain_last_reach {gs : GraphService} :
    ∀ (p : List String) (s x : String), ChainOk gs p → p.head? = some s →
    p.getLast? = some x → x ∈ reachN gs (p.length - 1) s := by
  intro p
  induction p using List.reverseRecOn with
  | nil =>
    intro s x _ hh _
    simp at hh
  | append_singleton q a ih =>
    intro s x hchain hh hl
    rw [List.getLast?_concat] at hl
    have hax : a = x := Option.some.inj hl
    subst hax
    by_cases hqe : q = []
    · subst hqe
      simp at hh
      subst hh
      simp [reachN]
    · have hchain' : ChainOk gs q ∧ ∀ y ∈ q.getLast?, EdgeOk gs y a := by
        rw [ChainOk, List.chain'_append] at hchain
        exact ⟨hchain.1, fun y hy => hchain.2.2 y hy a (by simp)⟩
      have hhq : q.head? = some s := by
        rcases q with _ | ⟨b, tl⟩
        · exact absurd rfl hqe
        · simpa using hh
      obtain ⟨w, hw⟩ : ∃ w, q.getLast? = some w := by
        cases hgl : q.getLast? with
        | none => exact absurd (List.getLast?_eq_none.mp hgl) hqe
        | some w => exact ⟨w, rfl⟩
      have hwreach := ih s w hchain'.1 hhq hw
      have hlen : (q ++ [a]).length - 1 = (q.length - 1) + 1 := by
        rcases q with _ | ⟨b, tl⟩
        · exact absurd rfl hqe
        · simp
      rw [hlen, reachN]
      exact edge_mem_reachStep hwreach (hchain'.2 w (by rw [hw]; simp))

/-! ## Initial search state -/

theorem lookup_singleton {k s : String} {v v' : Flt}
    (h : List.lookup k [(s, v)] = some v') : k = s ∧ v' = v := by
  by_cases hk : k = s
  · subst hk
    rw [lookup_cons_self] at h
    exact ⟨rfl, (Option.some.inj h).symm⟩
  · rw [lookup_cons_ne hk] at h
    simp [List.lookup] at h

theorem initEntry_wf (gs : GraphService) (s : String) :
    EntryWF gs s [(s, Flt.ofInt 0)]
      ⟨Flt.ofInt 0, 0, s, [s], [], 0, 0, Flt.ofInt 0⟩ := by
  refine ⟨by simp, rfl, rfl, by simp, ?_, ?_, by simp⟩
  · exact List.chain'_singleton s
  · intro x hx
    simp at hx
    subst hx
    rw [lookup_cons_self]
    simp

theorem init_bestdom (gs : GraphService) (s : String) :
    BestDom gs s [(s, Flt.ofInt 0)] := by
  intro k hk
  obtain ⟨v, hv⟩ := Option.isSome_iff_exists.mp hk
  exact Or.inl (lookup_singleton hv).1

theorem init_woc (gs : GraphService) (t s : String) :
    WOC gs t [⟨Flt.ofInt 0, 0, s, [s], [], 0, 0, Flt.ofInt 0⟩]
      [(s, Flt.ofInt 0)] := by
  intro k v hv
  obtain ⟨hk, hv'⟩ := lookup_singleton hv
  subst hk
  subst hv'
  refine Or.inl ⟨⟨Flt.ofInt 0, 0, k, [k], [], 0, 0, Flt.ofInt 0⟩, by simp, rfl, rfl⟩

/-! ## Claim C1 -/

/-- C1 (counterexample): the original claim is false.  In the snapshot `dangGs`
both `S` and `T` are known to the store, `T` has no incoming direct connection,
no cached route serves both, and no path `S → T` exists, yet
`findRouteByStops dangGs "S" "T"` raises an uncaught `KeyError` (the search pops
the dangling neighbour `Z`, and line 368 reads `self.stops_cache[current_stop]`)
instead of returning the explicit absence `None`. -/
theorem C1_counterexample :
    (dangGs.stops_cache.lookup "S").isSome = true ∧
    (dangGs.stops_cache.lookup "T").isSome = true ∧
    "T" ∉ neighborsOf dangGs "S" ∧
    (∀ p ∈ dangGs.routes_cache, ¬("S" ∈ p.2.stops ∧ "T" ∈ p.2.stops)) ∧
    "T" ∉ reachN dangGs dangGs.stops_cache.length "S" ∧
    findRouteByStops dangGs "S" "T" "time" 50 = DRes.err := by
  exact ⟨by decide, by decide, by decide, by decide, by decide, by decide⟩

/-- C1 (amended): on a snapshot whose connection graph is closed (every
connection target is itself cached — the invariant `load_graph_data` establishes
on consistent data), a query between two known stops with no direct connection,
no shared cached route, and no path in the connection graph returns the explicit
absence `None` (or runs out of fuel), never an exception and never an
itinerary. -/
theorem C1_no_route_explicit (gs : GraphService) (s t obj : String)
    (hclosed : ClosedGraph gs)
    (hs : (gs.stops_cache.lookup s).isSome = true)
    (ht : (gs.stops_cache.lookup t).isSome = true)
    (hdir : t ∉ neighborsOf gs s)
    (hshared : ∀ p ∈ gs.routes_cache, ¬(s ∈ p.2.stops ∧ t ∈ p.2.stops))
    (hreach : t ∉ reachN gs gs.stops_cache.length s) :
    ∀ fuel, findRouteByStops gs s t obj fuel = DRes.fuelOut ∨
      findRouteByStops gs s t obj fuel = DRes.noRoute := by
  intro fuel
  have hst : s ≠ t := by
    intro h
    exact hreach (h ▸ self_mem_reachN gs s _)
  obtain ⟨ss, hss⟩ := Option.isSome_iff_exists.mp hs
  obtain ⟨es, hes⟩ := Option.isSome_iff_exists.mp ht
  unfold findRouteByStops
  rw [hss, hes]
  simp only [Option.isSome_some, Bool.and_self, if_true]
  unfold dijkstra_with_transfers
  rw [hss, hes]
  dsimp only
  rw [if_neg hst]
  have hfind : ss.connections.find? (fun c => c.to_stop_id == t) = none := by
    rw [List.find?_eq_none]
    intro c hc
    simp only [beq_iff_eq]
    intro hct
    apply hdir
    unfold neighborsOf
    rw [hss]
    exact List.mem_map.mpr ⟨c, hc, hct⟩
  rw [hfind]
  have hfe : gs.routes_cache.find?
      (fun p => p.2.stops.contains s && p.2.stops.contains t) = none := by
    rw [List.find?_eq_none]
    intro p hp
    intro hcontains
    rw [Bool.and_eq_true_iff] at hcontains
    exact hshared p hp ⟨List.elem_iff.mp hcontains.1, List.elem_iff.mp hcontains.2⟩
  have hserve : find_route_serving_both_stops gs ss es s t = none := by
    unfold find_route_serving_both_stops
    rw [hfe]
  rw [hserve]
  rcases hres : dijkstra_pathfinding gs s t obj 5 fuel with _ | _ | _ | r
  · exact Or.inl rfl
  · exfalso
    unfold dijkstra_pathfinding at hres
    exact dloop_no_err hclosed fuel _ _ _ hres
  · exact Or.inr rfl
  · exfalso
    unfold dijkstra_pathfinding at hres
    obtain ⟨hhead, hlast, hnodup, hchain, hmem⟩ := dloop_sound fuel _ _ _ r
      (by
        intro x hx
        rw [List.mem_singleton] at hx
        subst hx
        exact initEntry_wf gs s)
      (init_bestdom gs s) hres
    have hlen : r.path.length ≤ gs.stops_cache.length + 1 := by
      have hsub : ∀ x ∈ r.path, x ∈ s :: gs.stops_cache.map Prod.fst := by
        intro x hx
        rcases hmem x hx with h | h
        · exact h ▸ List.mem_cons_self _ _
        · exact List.mem_cons_of_mem _ h
      have := nodup_length_le hnodup hsub
      simpa using this
    have hr' := chain_last_reach r.path s t hchain hhead hlast
    exact hreach (reachN_mono (by omega) hr')

/-- C1 (witness): on the B030/B033 regression snapshot the amended theorem
applies in both directions, and both queries indeed return `None`. -/
theorem C1_no_route_explicit_witness :
    (findRouteByStops b030Gs "B030" "B033" "time" 50 = DRes.fuelOut ∨
      findRouteByStops b030Gs "B030" "B033" "time" 50 = DRes.noRoute) ∧
    (findRouteByStops b030Gs "B033" "B030" "time" 50 = DRes.fuelOut ∨
      findRouteByStops b030Gs "B033" "B030" "time" 50 = DRes.noRoute) ∧
    findRouteByStops b030Gs "B030" "B033" "time" 50 = DRes.noRoute ∧
    findRouteByStops b030Gs "B033" "B030" "time" 50 = DRes.noRoute :=
  ⟨C1_no_route_explicit b030Gs "B030" "B033" "time" (by decide) (by decide)
      (by decide) (by decide) (by decide) (by decide) 50,
    C1_no_route_explicit b030Gs "B033" "B030" "time" (by decide) (by decide)
      (by decide) (by decide) (by decide) (by decide) 50,
    by decide, by decide⟩

/-! ## Claim C2 -/

/-- C2: for any stop known to the store and any objective, the same-stop query
returns — without running any search (any fuel, including `0`) — the zero
itinerary: path `[A]`, no segments, zero total time, total cost, transfers and
walking time. -/
theorem C2_same_stop (gs : GraphService) (A obj : String) (fuel : Nat)
    (hA : (gs.stops_cache.lookup A).isSome = true) :
    findRouteByStops gs A A obj fuel = DRes.found (sameStopRoute A) ∧
    (sameStopRoute A).path = [A] ∧
    (sameStopRoute A).segments = [] ∧
    (sameStopRoute A).total_time = some 0 ∧
    (sameStopRoute A).total_cost.toRat = 0 ∧
    (sameStopRoute A).transfers = 0 ∧
    (sameStopRoute A).walking_time = some 0 := by
  obtain ⟨st, hst⟩ := Option.isSome_iff_exists.mp hA
  refine ⟨?_, rfl, rfl, rfl, by simp [sameStopRoute, Flt.toRat_ofInt], rfl, rfl⟩
  unfold findRouteByStops dijkstra_with_transfers
  rw [hst]
  simp

/-- C2 (witness): the same-stop query at B030 with zero fuel. -/
theorem C2_same_stop_witness :
    (b030Gs.stops_cache.lookup "B030").isSome = true ∧
    findRouteByStops b030Gs "B030" "B030" "time" 0 =
      DRes.found (sameStopRoute "B030") :=
  ⟨by decide, (C2_same_stop b030Gs "B030" "time" 0 (by decide)).1⟩

/-! ## Claim C7 -/

/-- C7: every itinerary the search returns has an acyclic path — no stop occurs
twice.  The snapshot is assumed keyed by the stops' own identifiers, the
invariant `load_graph_data` establishes (`stops_cache[stop.stop_id] = stop`). -/
theorem C7_acyclic_path (gs : GraphService) (s t obj : String) (fuel : Nat)
    (r : OptimizedRoute) (hck : CacheKeyed gs)
    (h : findRouteByStops gs s t obj fuel = DRes.found r) : r.path.Nodup := by
  unfold findRouteByStops at h
  by_cases hc : ((gs.stops_cache.lookup s).isSome &&
      (gs.stops_cache.lookup t).isSome) = true
  · rw [if_pos hc] at h
    obtain ⟨hs, ht⟩ := Bool.and_eq_true_iff.mp hc
    obtain ⟨ss, hss⟩ := Option.isSome_iff_exists.mp hs
    obtain ⟨es, hes⟩ := Option.isSome_iff_exists.mp ht
    have hsid : ss.stop_id = s := hck (s, ss) (lookup_mem_pair hss)
    have heid : es.stop_id = t := hck (t, es) (lookup_mem_pair hes)
    unfold dijkstra_with_transfers at h
    rw [hss, hes] at h
    dsimp only at h
    by_cases hst : s = t
    · rw [if_pos hst] at h
      simp only [DRes.found.injEq] at h
      subst h
      simp [sameStopRoute]
    · rw [if_neg hst] at h
      rcases hfind : ss.connections.find? (fun c => c.to_stop_id == t)
          with _ | c
      · rw [hfind] at h
        dsimp only at h
        rcases hserve : find_route_serving_both_stops gs ss es s t with _ | r'
        · rw [hserve] at h
          dsimp only at h
          unfold dijkstra_pathfinding at h
          exact (dloop_sound fuel _ _ _ r
            (by
              intro x hx
              rw [List.mem_singleton] at hx
              subst hx
              exact initEntry_wf gs s)
            (init_bestdom gs s) h).2.2.1
        · rw [hserve] at h
          simp only [DRes.found.injEq] at h
          subst h
          unfold find_route_serving_both_stops at hserve
          rcases hfe : gs.routes_cache.find?
              (fun p => p.2.stops.contains s && p.2.stops.contains t)
              with _ | ⟨rid, doc⟩
          · rw [hfe] at hserve
            simp at hserve
          · rw [hfe] at hserve
            dsimp only at hserve
            have hr' := Option.some.inj hserve
            rw [← hr']
            simp [create_route_from_data, hsid, heid, hst]
      · rw [hfind] at h
        simp only [DRes.found.injEq] at h
        subst h
        simp [create_route_from_connection, hsid, heid, hst]
  · rw [if_neg hc] at h
    exact absurd h (by simp)

/-- C7 (witness): the direct-connection query `W → V` of `cwGs` returns an
itinerary, and the theorem certifies its path duplicate-free. -/
theorem C7_acyclic_path_witness :
    CacheKeyed cwGs ∧
    ∃ r, findRouteByStops cwGs "W" "V" "time" 50 = DRes.found r ∧
      r.path.Nodup := by
  refine ⟨by decide, ?_⟩
  rcases hr : findRouteByStops cwGs "W" "V" "time" 50 with _ | _ | _ | r
  · exact absurd hr (by decide)
  · exact absurd hr (by decide)
  · exact absurd hr (by decide)
  · exact ⟨r, rfl, C7_acyclic_path cwGs "W" "V" "time" 50 r (by decide) hr⟩

/-! ## Claim C3 -/

/-- C3 (counterexample): the original claim is false.  On `c3Gs` the search for
`S → T` under objective `"transfers"` returns an itinerary with key `113` (one
transfer, 13 minutes), although the simple path `S →RA M →RA T` — within the
transfer bound — has key `13` (no transfer): the per-stop `best_costs` pruning
discards the slower-but-transfer-free continuation through `M`. -/
theorem C3_counterexample :
    (dijkstra_pathfinding c3Gs "S" "T" "transfers" 5 50).keyT = some 113 ∧
    connChainB c3Gs "S" c3AltConns "T" = true ∧
    (connStops "S" c3AltConns).Nodup ∧
    pathTransfers c3Gs c3AltConns ≤ 5 ∧
    pathKeyTransfers c3Gs c3AltConns = 13 := by
  exact ⟨by decide, by decide, by decide, by decide, by decide⟩

/-- C3 (amended): under objective `"transfers"`, whenever the start stop has a
direct connection `c` to the destination, any itinerary the general search
returns has key (`transfers × 100 + total time`) at most the key of that direct
connection (edge time plus its boarding penalty).  The full per-path optimality
of the original claim fails (see the counterexample); this single-edge bound is
what the `best_costs` pruning does guarantee. -/
theorem C3_transfer_key_bound (gs : GraphService) (s t : String) (stS : Stop)
    (k : Int) (fuel : Nat) (r : OptimizedRoute)
    (hs : gs.stops_cache.lookup s = some stS)
    (hne : s ≠ t) (hk : 1 ≤ k)
    (hrun : dijkstra_pathfinding gs s t "transfers" k fuel = DRes.found r)
    (c : Conn) (hc : c ∈ stS.connections) (hct : c.to_stop_id = t) :
    ∃ time, r.total_time = some time ∧
      r.transfers * 100 + time ≤ directKeyTransfers gs c := by
  unfold dijkstra_pathfinding at hrun
  cases fuel with
  | zero =>
    rw [dloop] at hrun
    exact absurd hrun (by simp)
  | succ n =>
    rw [dloop] at hrun
    have hpop : popMin [(⟨Flt.ofInt 0, 0, s, [s], [], 0, 0, Flt.ofInt 0⟩ : Entry)] =
        some (⟨Flt.ofInt 0, 0, s, [s], [], 0, 0, Flt.ofInt 0⟩, []) := rfl
    rw [hpop] at hrun
    dsimp only at hrun
    rw [lookup_cons_self] at hrun
    dsimp only at hrun
    rw [Flt.blt_self] at hrun
    rw [if_neg (by decide)] at hrun
    rw [if_neg hne] at hrun
    rw [if_neg (by omega : ¬ k ≤ (0 : Int))] at hrun
    rw [hs] at hrun
    dsimp only at hrun
    rcases hexp : expandConns gs "transfers"
        ⟨Flt.ofInt 0, 0, s, [s], [], 0, 0, Flt.ofInt 0⟩ stS.name
        stS.connections ⟨[], [(s, Flt.ofInt 0)], 1⟩ with _ | st₁
    · rw [hexp] at hrun
      exact absurd hrun (by simp)
    · rw [hexp] at hrun
      dsimp only at hrun
      refine @dloop_keyT_bound gs s t k (directKeyTransfers gs c)
        n st₁.pq st₁.best st₁.ctr r ?_ ?_ ?_ hrun
      · exact expandConns_wf hs hexp (fun cc hcc => hcc) (initEntry_wf gs s)
          (by intro x hx; simp at hx)
      · exact expandConns_key hexp (by intro x hx; simp at hx)
      · refine expandConns_direct_bound rfl rfl rfl ?_ hexp c hc hct
        intro hmem
        rw [List.mem_singleton] at hmem
        exact hne hmem.symm

/-- C3 (witness): on the single-edge snapshot `cwGs` the bound theorem applies
to the direct edge `W → V` and certifies the returned key. -/
theorem C3_transfer_key_bound_witness :
    ∃ r, cwRes = DRes.found r ∧
      ∃ time, r.total_time = some time ∧
        r.transfers * 100 + time ≤ directKeyTransfers cwGs (exConn "V" "R1" 5) := by
  rcases hr : cwRes with _ | _ | _ | r
  · exact absurd hr (by decide)
  · exact absurd hr (by decide)
  · exact absurd hr (by decide)
  · refine ⟨r, rfl, ?_⟩
    have hrun : dijkstra_pathfinding cwGs "W" "V" "transfers" 5 50 =
        DRes.found r := hr
    exact C3_transfer_key_bound cwGs "W" "V"
      (exStop "W" "W" (Flt.ofInt 0) (Flt.ofInt 0) [exConn "V" "R1" 5]).2
      5 50 r (by decide) (by decide) (by decide) hrun
      (exConn "V" "R1" 5) (by decide) (by decide)

/-! ## Claim C4 -/

/-- C4 (refuted — code bug): the traced run diverges from the authoritative
search.  On the 7-edge chain `chainGs` (each edge on its own route, so reaching
`T` needs 6 transfers) the trace terminates well under the 100-step cap, marks
`T` visited and reports the destination found, while `_dijkstra_pathfinding`
(and the full `_dijkstra_with_transfers`) reports no route: the traced loop has
no `max_transfers` prune, uses a global visited set, and pushes neighbours
unconditionally. -/
theorem C4_trace_divergence :
    dijkstra_pathfinding chainGs "S" "T" "time" 5 50 = DRes.noRoute ∧
    (dijkstra_with_transfers chainGs "S" "T" "time" 50).isFound = false ∧
    (get_algorithm_execution_steps chainGs "S" "T" "time" 50).isSome = true ∧
    ((get_algorithm_execution_steps chainGs "S" "T" "time" 50).getD []).all
      (fun st => !(st.act == TAct.maxSteps)) = true ∧
    traceFound (get_algorithm_execution_steps chainGs "S" "T" "time" 50) = true ∧
    traceVisitedHas (get_algorithm_execution_steps chainGs "S" "T" "time" 50) "T"
      = true := by
  exact ⟨by decide, by decide, by decide, by decide, by decide, by decide⟩

/-! ## Claim C6 -/

/-- C6 (partly refuted — code bug): for a cached stop the function returns
`(int((d / 5.0) × 60), d)` when `d ≤ 0.5` km and infinite minutes when
`d > 0.5` km, as claimed (int truncation equals the floor for the nonnegative
value).  For an unknown stop id, however, the claimed infinite-minutes result is
NOT produced: the `if not stop_coords:` guard never fires (the `(None, None)`
tuple is truthy) and geopy coerces the `None` coordinates to `(0.0, 0.0)`, so
the unknown stop is measured as if at Null Island — here with finite minutes
`some 0`. -/
theorem C6_walking_time (gs : GraphService) (dist dist' : DistFn)
    (lat lon : Flt) (sid : String) (st : Stop)
    (hst : gs.stops_cache.lookup sid = some st)
    (h0 : dist' (Flt.ofInt 0, Flt.ofInt 0) (Flt.ofInt 0, Flt.ofInt 0)
      = Flt.ofInt 0) :
    (0 ≤ (dist (lat, lon) (st.location.coords.2, st.location.coords.1)).toRat →
     (dist (lat, lon) (st.location.coords.2, st.location.coords.1)).toRat ≤ 1/2 →
      gs.calculate_walking_time_from_coords dist lat lon sid =
        (some ⌊(dist (lat, lon)
            (st.location.coords.2, st.location.coords.1)).toRat / 5 * 60⌋,
         dist (lat, lon) (st.location.coords.2, st.location.coords.1))) ∧
    (1/2 < (dist (lat, lon) (st.location.coords.2, st.location.coords.1)).toRat →
      gs.calculate_walking_time_from_coords dist lat lon sid =
        (none, dist (lat, lon) (st.location.coords.2, st.location.coords.1))) ∧
    c6Gs.stops_cache.lookup "NOPE" = none ∧
    c6Gs.calculate_walking_time_from_coords dist' (Flt.ofInt 0) (Flt.ofInt 0)
      "NOPE" = (some 0, Flt.ofInt 0) := by
  have hl : gs.get_stop_coordinates sid
      = some (st.location.coords.2, st.location.coords.1) := by
    unfold GraphService.get_stop_coordinates
    rw [hst]
    rfl
  refine ⟨?_, ?_, by decide, ?_⟩
  · intro hnn hle
    unfold GraphService.calculate_walking_time_from_coords
    rw [hl]
    have hcond : Flt.blt Settings.MAX_WALKING_DISTANCE_KM
        (dist (lat, lon) (st.location.coords.2, st.location.coords.1)) = false := by
      rw [Flt.blt_eq_false_iff]
      have hmax : (Settings.MAX_WALKING_DISTANCE_KM).toRat = 1/2 := by
        norm_num [Settings.MAX_WALKING_DISTANCE_KM, Flt.toRat, Flt.mkD, Flt.den]
      rw [hmax]
      exact hle
    simp only [hcond, Bool.false_eq_true, if_false]
    congr 1
    · congr 1
      set d := dist (lat, lon) (st.location.coords.2, st.location.coords.1) with hd
      have h5 : (Flt.div d Settings.WALKING_SPEED_KMH).toRat = d.toRat / 5 := by
        rw [Flt.toRat_div_pos (by norm_num [Settings.WALKING_SPEED_KMH, Flt.ofInt])]
        norm_num [Settings.WALKING_SPEED_KMH, Flt.toRat_ofInt]
      have hval : (Flt.mul (Flt.div d Settings.WALKING_SPEED_KMH)
          (Flt.ofInt 60)).toRat = d.toRat / 5 * 60 := by
        rw [Flt.toRat_mul, h5, Flt.toRat_ofInt]
        norm_num
      rw [Flt.pyInt_eq_floor (by rw [hval]; positivity), hval]
  · intro hgt
    unfold GraphService.calculate_walking_time_from_coords
    rw [hl]
    have hcond : Flt.blt Settings.MAX_WALKING_DISTANCE_KM
        (dist (lat, lon) (st.location.coords.2, st.location.coords.1)) = true := by
      rw [Flt.blt_iff]
      have hmax : (Settings.MAX_WALKING_DISTANCE_KM).toRat = 1/2 := by
        norm_num [Settings.MAX_WALKING_DISTANCE_KM, Flt.toRat, Flt.mkD, Flt.den]
      rw [hmax]
      exact hgt
    simp only [hcond, if_true]
  · unfold GraphService.calculate_walking_time_from_coords
    have hn : c6Gs.get_stop_coordinates "NOPE" = none := by decide
    rw [hn]
    simp only [h0]
    decide

/-- C6 (witness): a 0.3 km distance from the known stop `K` yields
`⌊0.3 / 5 × 60⌋` minutes, and the unknown stop `NOPE` at the query point yields
the finite `0` minutes. -/
theorem C6_walking_time_witness :
    c6Gs.calculate_walking_time_from_coords distP3 (Flt.ofInt 0) (Flt.ofInt 0)
      "K" = (some ⌊(distP3 ((Flt.ofInt 0), (Flt.ofInt 0))
        (((exStop "K" "Known" (Flt.ofInt 3) (Flt.ofInt 4) []).2).location.coords.2,
         ((exStop "K" "Known" (Flt.ofInt 3) (Flt.ofInt 4) []).2).location.coords.1)).toRat
          / 5 * 60⌋,
       distP3 ((Flt.ofInt 0), (Flt.ofInt 0))
        (((exStop "K" "Known" (Flt.ofInt 3) (Flt.ofInt 4) []).2).location.coords.2,
         ((exStop "K" "Known" (Flt.ofInt 3) (Flt.ofInt 4) []).2).location.coords.1)) ∧
    c6Gs.calculate_walking_time_from_coords dist0 (Flt.ofInt 0) (Flt.ofInt 0)
      "NOPE" = (some 0, Flt.ofInt 0) := by
  have h := C6_walking_time c6Gs distP3 dist0 (Flt.ofInt 0) (Flt.ofInt 0) "K"
    (exStop "K" "Known" (Flt.ofInt 3) (Flt.ofInt 4) []).2 (by decide) rfl
  exact ⟨h.1 (by norm_num [distP3, Flt.toRat, Flt.mkD, Flt.den])
      (by norm_num [distP3, Flt.toRat, Flt.mkD, Flt.den]),
    h.2.2.2⟩

/-! ## Claim C8 -/

/-- C8 (counterexample): the original claim is false.  On `c8Gs` the search
`S → T` succeeds with `max_transfers = 1` but fails with the larger bound
`max_transfers = 2`: the wider bound lets the cheap two-transfer path reach `u`
first, which poisons `best_costs[u]`, and the transfer-free continuation through
`u` is then pruned — raising the bound loses reachability. -/
theorem C8_counterexample :
    (dijkstra_pathfinding c8Gs "S" "T" "time" 1 50).isFound = true ∧
    dijkstra_pathfinding c8Gs "S" "T" "time" 2 50 = DRes.noRoute := by
  exact ⟨by decide, by decide⟩

/-- C8 (amended): raising the bound to at least `|stops| + 1` (a bound no
simple path can hit) restores the guarantee: if the search with any bound `k`
returns an itinerary, the search with such a `k' ≥ k` cannot report that no
route exists. -/
theorem C8_transfer_bound_monotone (gs : GraphService) (s t obj : String)
    (k k' : Int) (fuel fuel' : Nat) (r : OptimizedRoute)
    (hkk : k ≤ k')
    (hfound : dijkstra_pathfinding gs s t obj k fuel = DRes.found r)
    (hk' : (gs.stops_cache.length : Int) + 1 ≤ k') :
    dijkstra_pathfinding gs s t obj k' fuel' ≠ DRes.noRoute := by
  intro hno
  unfold dijkstra_pathfinding at hfound hno
  obtain ⟨hhead, hlast, _, hchain, _⟩ := dloop_sound fuel _ _ _ r
    (by
      intro x hx
      rw [List.mem_singleton] at hx
      subst hx
      exact initEntry_wf gs s)
    (init_bestdom gs s) hfound
  exact dloop_complete hk' fuel' _ _ _
    (by
      intro x hx
      rw [List.mem_singleton] at hx
      subst hx
      exact initEntry_wf gs s)
    (init_bestdom gs s)
    (by rw [lookup_cons_self]; rfl)
    (init_woc gs t s)
    hno r.path hchain hhead hlast

/-- C8 (witness): on `c8Gs` (5 cached stops) the run with bound 1 finds a
route, and the amended theorem rules out `noRoute` at bound 6. -/
theorem C8_transfer_bound_monotone_witness :
    (1 : Int) ≤ 6 ∧ (c8Gs.stops_cache.length : Int) + 1 ≤ 6 ∧
    dijkstra_pathfinding c8Gs "S" "T" "time" 6 50 ≠ DRes.noRoute := by
  refine ⟨by norm_num, by decide, ?_⟩
  rcases hr : dijkstra_pathfinding c8Gs "S" "T" "time" 1 50 with _ | _ | _ | r
  · exact absurd hr (by decide)
  · exact absurd hr (by decide)
  · exact absurd hr (by decide)
  · exact C8_transfer_bound_monotone c8Gs "S" "T" "time" 1 6 50 50 r
      (by norm_num) hr (by decide)

/-! ## Claim C10 -/

theorem enhance_route_segments (gs : GraphService) (dist : DistFn)
    (bearing : BearFn) (r : OptimizedRoute) (slat slon elat elon : Flt)
    (r' : OptimizedRoute)
    (h : enhance_route gs dist bearing r slat slon elat elon = some r') :
    ∃ l : List RouteSegment, r'.segments = l.map enhance_segment := by
  unfold enhance_route at h
  dsimp only at h
  split at h
  · exact absurd h (by simp)
  · split at h
    · exact absurd h (by simp)
    · rename_i r₄ heq
      refine ⟨r₄.segments, ?_⟩
      have := Option.some.inj h
      rw [← this]

/-- C10: after `enhance_route` runs (returning a route rather than raising on
an infinite walking time), every segment's `route_type` is determined solely by
its `route_id` string — `"metro"` iff the id contains `"METRO"`, `"walking"`
iff the id equals `"WALKING"`, `"bus"` otherwise — regardless of any type
recorded in the routes cache. -/
theorem C10_route_type (gs : GraphService) (dist : DistFn) (bearing : BearFn)
    (r : OptimizedRoute) (slat slon elat elon : Flt) (r' : OptimizedRoute)
    (h : enhance_route gs dist bearing r slat slon elat elon = some r') :
    ∀ seg ∈ r'.segments,
      seg.route_type = (if containsMETRO seg.route_id = true then "metro"
        else if seg.route_id = "WALKING" then "walking" else "bus") := by
  obtain ⟨l, hl⟩ := enhance_route_segments gs dist bearing r slat slon elat elon r' h
  intro seg hs
  rw [hl] at hs
  obtain ⟨t, ht, rfl⟩ := List.mem_map.mp hs
  show (if containsMETRO t.route_id then "metro"
    else if t.route_id == "WALKING" then "walking" else "bus") = _
  rcases hm : containsMETRO t.route_id with _ | _
  · rcases hwv : t.route_id == "WALKING" with _ | _
    · have hne : ¬ (t.route_id = "WALKING") := by
        simpa using hwv
      simp [enhance_segment, hm, hwv, hne]
    · have heq : t.route_id = "WALKING" := by
        simpa using hwv
      have hcw : containsMETRO "WALKING" = false := by decide
      simp [enhance_segment, hm, hwv, heq, hcw]
  · simp [enhance_segment, hm]

/-- C10 (witness): the direct `P → Q` itinerary of `c5Gs` carries the cached
type `"train"` on its `METRO_X` segment before enhancement; the enhancer
returns a route and the theorem certifies each segment's type is the one
dictated by its id (`"metro"` here). -/
theorem C10_route_type_witness :
    c10Base.segments.all (fun s => s.route_type == "train") = true ∧
    ∃ r', c10Enh = some r' ∧
      ∀ seg ∈ r'.segments,
        seg.route_type = (if containsMETRO seg.route_id = true then "metro"
          else if seg.route_id = "WALKING" then "walking" else "bus") := by
  refine ⟨by decide, ?_⟩
  rcases hr : c10Enh with _ | r'
  · exact absurd hr (by decide)
  · exact ⟨r', rfl, C10_route_type c5Gs dist0 bear0 c10Base (Flt.ofInt 0)
      (Flt.ofInt 0) (Flt.ofInt 0) (Flt.ofInt 0) r' hr⟩

/-! ## Claim C5 -/

theorem eltB_iff (a b : Option Flt) : eltB a b = true ↔ toQI a < toQI b := by
  rcases a with _ | x
  · rcases b with _ | y
    · simp [eltB, toQI]
    · simp [eltB, toQI]
  · rcases b with _ | y
    · simp [eltB, toQI]
    · simp only [eltB, toQI]
      rw [Flt.blt_iff]
      exact (WithTop.coe_lt_coe).symm

theorem find_nearest_stops_length_le (gs : GraphService) (dist : DistFn)
    (lat lon : Flt) (limit : Nat) :
    (gs.find_nearest_stops dist lat lon limit).length ≤ limit := by
  unfold GraphService.find_nearest_stops
  dsimp only
  rw [List.length_map, List.length_take]
  exact min_le_left _ _

theorem candidatePairs_length_le (gs : GraphService) (dist : DistFn)
    (slat slon elat elon : Flt) :
    (candidatePairs gs dist slat slon elat elon).length ≤ 9 := by
  unfold candidatePairs
  rw [List.length_flatMap]
  simp only [Function.comp_def]
  have h1 : ((gs.find_nearest_stops dist slat slon 3).map Prod.fst).length ≤ 3 := by
    rw [List.length_map]
    exact find_nearest_stops_length_le gs dist slat slon 3
  have h2 : ((gs.find_nearest_stops dist elat elon 3).map Prod.fst).length ≤ 3 := by
    rw [List.length_map]
    exact find_nearest_stops_length_le gs dist elat elon 3
  set l1 := (gs.find_nearest_stops dist slat slon 3).map Prod.fst with hl1
  set l2 := (gs.find_nearest_stops dist elat elon 3).map Prod.fst with hl2
  have hsum : (l1.map (fun ss => ((l2.map (fun es => (ss, es))).length))).sum
      = l1.length * l2.length := by
    have : (l1.map (fun ss => ((l2.map (fun es => (ss, es))).length)))
        = List.replicate l1.length l2.length := by
      rw [List.eq_replicate_iff]
      refine ⟨by rw [List.length_map], ?_⟩
      intro b hb
      obtain ⟨a, _, hab⟩ := List.mem_map.mp hb
      rw [← hab, List.length_map]
    rw [this, List.sum_replicate, smul_eq_mul]
  rw [hsum]
  calc l1.length * l2.length ≤ 3 * 3 := Nat.mul_le_mul h1 h2
    _ = 9 := rfl

theorem tryPairs_noRoute (gs : GraphService) (dist : DistFn)
    (slat slon elat elon : Flt) (obj : String) (fuel : Nat) :
    ∀ ps : List (String × String),
    (∀ p ∈ ps, dijkstra_with_transfers gs p.1 p.2 obj fuel ≠ DRes.fuelOut ∧
      dijkstra_with_transfers gs p.1 p.2 obj fuel ≠ DRes.err) →
    (∀ p ∈ ps, candAt gs dist slat slon elat elon obj fuel p = none) →
    tryPairs gs dist slat slon elat elon obj fuel ps none none = DRes.noRoute := by
  intro ps
  induction ps with
  | nil =>
    intro _ _
    rw [tryPairs]
  | cons p rest ih =>
    obtain ⟨ss, es⟩ := p
    intro hterm hall
    rw [tryPairs.eq_def]
    dsimp only
    have hc := hall (ss, es) (by simp)
    unfold candAt at hc
    dsimp only at hc
    rcases hd : dijkstra_with_transfers gs ss es obj fuel with _ | _ | _ | rr
    · exact absurd hd (hterm (ss, es) (by simp)).1
    · exact absurd hd (hterm (ss, es) (by simp)).2
    · dsimp only
      exact ih (fun q hq => hterm q (List.mem_cons_of_mem _ hq))
        (fun q hq => hall q (List.mem_cons_of_mem _ hq))
    · rw [hd] at hc
      exact absurd hc (by simp)

theorem tryPairs_found_aux (gs : GraphService) (dist : DistFn)
    (slat slon elat elon : Flt) (obj : String) (fuel : Nat) :
    ∀ (ps : List (String × String)) (best : Option OptimizedRoute)
      (bc : Option Flt) (r : OptimizedRoute),
    (∀ rb, best = some rb → bc = calculate_total_cost rb obj) →
    tryPairs gs dist slat slon elat elon obj fuel ps best bc = DRes.found r →
    (best = some r ∧
      ∀ q ∈ ps, ∀ cq, candAt gs dist slat slon elat elon obj fuel q = some cq →
        eltB (calculate_total_cost cq obj) bc = false) ∨
    (∃ l₁ p l₂, ps = l₁ ++ p :: l₂ ∧
      candAt gs dist slat slon elat elon obj fuel p = some r ∧
      eltB (calculate_total_cost r obj) bc = true ∧
      (∀ q ∈ l₁, ∀ cq, candAt gs dist slat slon elat elon obj fuel q = some cq →
        toQI (calculate_total_cost r obj) < toQI (calculate_total_cost cq obj)) ∧
      (∀ q ∈ l₂, ∀ cq, candAt gs dist slat slon elat elon obj fuel q = some cq →
        toQI (calculate_total_cost r obj) ≤ toQI (calculate_total_cost cq obj))) := by
  intro ps
  induction ps with
  | nil =>
    intro best bc r hacc h
    rw [tryPairs.eq_def] at h
    dsimp only at h
    rcases best with _ | rb
    · exact absurd h (by simp)
    · left
      simp only [DRes.found.injEq] at h
      subst h
      exact ⟨rfl, by intro q hq; simp at hq⟩
  | cons p₀ rest ih =>
    obtain ⟨ss, es⟩ := p₀
    intro best bc r hacc h
    rw [tryPairs.eq_def] at h
    dsimp only at h
    have hcand : ∀ rr, dijkstra_with_transfers gs ss es obj fuel = DRes.found rr →
        candAt gs dist slat slon elat elon obj fuel (ss, es) =
          some (adjustRoute gs dist slat slon elat elon ss es rr) := by
      intro rr hd
      unfold candAt
      dsimp only
      rw [hd]
    have hcnone : dijkstra_with_transfers gs ss es obj fuel = DRes.noRoute →
        candAt gs dist slat slon elat elon obj fuel (ss, es) = none := by
      intro hd
      unfold candAt
      dsimp only
      rw [hd]
    rcases hd : dijkstra_with_transfers gs ss es obj fuel with _ | _ | _ | rr
    · rw [hd] at h
      exact absurd h (by simp)
    · rw [hd] at h
      exact absurd h (by simp)
    · rw [hd] at h
      dsimp only at h
      rcases ih best bc r hacc h with ⟨hbest, hrej⟩ |
        ⟨l₁, p, l₂, hsplit, hcand2, hacc2, hl₁, hl₂⟩
      · left
        refine ⟨hbest, ?_⟩
        intro q hq cq hcq
        rcases List.mem_cons.mp hq with hq | hq
        · subst hq
          rw [hcnone hd] at hcq
          exact absurd hcq (by simp)
        · exact hrej q hq cq hcq
      · right
        refine ⟨(ss, es) :: l₁, p, l₂, by rw [hsplit]; rfl, hcand2, hacc2, ?_, hl₂⟩
        intro q hq cq hcq
        rcases List.mem_cons.mp hq with hq | hq
        · subst hq
          rw [hcnone hd] at hcq
          exact absurd hcq (by simp)
        · exact hl₁ q hq cq hcq
    · rw [hd] at h
      dsimp only at h
      set r' := adjustRoute gs dist slat slon elat elon ss es rr with hr'
      set rc := calculate_total_cost r' obj with hrc
      have hcr' := hcand rr hd
      by_cases hcmp : eltB rc bc = true
      · rw [if_pos hcmp] at h
        rcases ih (some r') rc r
            (by
              intro rb hrb
              rw [← Option.some.inj hrb]) h with
          ⟨hbest, hrej⟩ | ⟨l₁, p, l₂, hsplit, hcand2, hacc2, hl₁, hl₂⟩
        · have hrr : r' = r := Option.some.inj hbest
          right
          refine ⟨[], (ss, es), rest, rfl, by rw [← hrr]; exact hcr', ?_,
            by intro q hq; simp at hq, ?_⟩
          · rw [← hrr]
            exact hcmp
          · intro q hq cq hcq
            have hf := hrej q hq cq hcq
            have hnlt : ¬ (toQI (calculate_total_cost cq obj) < toQI rc) := by
              intro hx
              have := (eltB_iff _ _).mpr hx
              rw [hf] at this
              exact absurd this (by simp)
            rw [← hrr]
            exact le_of_not_lt hnlt
        · right
          refine ⟨(ss, es) :: l₁, p, l₂, by rw [hsplit]; rfl, hcand2, ?_, ?_, hl₂⟩
          · rw [eltB_iff]
            exact lt_trans ((eltB_iff _ _).mp hacc2) ((eltB_iff _ _).mp hcmp)
          · intro q hq cq hcq
            rcases List.mem_cons.mp hq with hq | hq
            · subst hq
              rw [hcr'] at hcq
              rw [← Option.some.inj hcq]
              exact (eltB_iff _ _).mp hacc2
            · exact hl₁ q hq cq hcq
      · rw [if_neg hcmp] at h
        rcases ih best bc r hacc h with ⟨hbest, hrej⟩ |
          ⟨l₁, p, l₂, hsplit, hcand2, hacc2, hl₁, hl₂⟩
        · left
          refine ⟨hbest, ?_⟩
          intro q hq cq hcq
          rcases List.mem_cons.mp hq with hq | hq
          · subst hq
            rw [hcr'] at hcq
            rw [← Option.some.inj hcq]
            exact Bool.eq_false_iff.mpr hcmp
          · exact hrej q hq cq hcq
        · right
          refine ⟨(ss, es) :: l₁, p, l₂, by rw [hsplit]; rfl, hcand2, hacc2, ?_, hl₂⟩
          intro q hq cq hcq
          rcases List.mem_cons.mp hq with hq | hq
          · subst hq
            rw [hcr'] at hcq
            rw [← Option.some.inj hcq]
            have h1 := (eltB_iff _ _).mp hacc2
            have h2 : ¬ (toQI rc < toQI bc) := fun hx => hcmp ((eltB_iff _ _).mpr hx)
            exact lt_of_lt_of_le h1 (le_of_not_lt h2)
          · exact hl₁ q hq cq hcq

/-- C5: the facade tries all pairs from the up-to-3 nearest start and end stops
(at most 9 searches); each candidate is the search result with access/egress
walking time folded into its totals (`adjustRoute`); candidates are compared by
the objective scalar (time+walking / fare / transfers); if every pair yields no
route the outcome is `None`; and a returned itinerary is a candidate beating
every earlier candidate strictly and every later one weakly — the first
minimum in iteration order. -/
theorem C5_facade (gs : GraphService) (dist : DistFn) (slat slon elat elon : Flt)
    (obj : String) (fuel : Nat)
    (hterm : ∀ p ∈ candidatePairs gs dist slat slon elat elon,
      dijkstra_with_transfers gs p.1 p.2 obj fuel ≠ DRes.fuelOut ∧
      dijkstra_with_transfers gs p.1 p.2 obj fuel ≠ DRes.err) :
    (candidatePairs gs dist slat slon elat elon).length ≤ 9 ∧
    (∀ ro : OptimizedRoute,
      calculate_total_cost ro "time" =
        (waddOI ro.total_time ro.walking_time).map Flt.ofInt ∧
      calculate_total_cost ro "cost" = some ro.total_cost ∧
      calculate_total_cost ro "transfers" = some (Flt.ofInt ro.transfers)) ∧
    ((∀ p ∈ candidatePairs gs dist slat slon elat elon,
        candAt gs dist slat slon elat elon obj fuel p = none) →
      find_optimal_route gs dist slat slon elat elon obj fuel = DRes.noRoute) ∧
    (∀ r, find_optimal_route gs dist slat slon elat elon obj fuel = DRes.found r →
      ∃ l₁ p l₂, candidatePairs gs dist slat slon elat elon = l₁ ++ p :: l₂ ∧
        (∃ r₀, dijkstra_with_transfers gs p.1 p.2 obj fuel = DRes.found r₀ ∧
          r = adjustRoute gs dist slat slon elat elon p.1 p.2 r₀) ∧
        (∀ q ∈ l₁, ∀ cq, candAt gs dist slat slon elat elon obj fuel q = some cq →
          toQI (calculate_total_cost r obj) < toQI (calculate_total_cost cq obj)) ∧
        (∀ q ∈ l₂, ∀ cq, candAt gs dist slat slon elat elon obj fuel q = some cq →
          toQI (calculate_total_cost r obj) ≤ toQI (calculate_total_cost cq obj))) := by
  refine ⟨candidatePairs_length_le gs dist slat slon elat elon, ?_, ?_, ?_⟩
  · intro ro
    refine ⟨rfl, ?_, ?_⟩
    · unfold calculate_total_cost
      rw [if_neg (by decide), if_pos rfl]
    · unfold calculate_total_cost
      rw [if_neg (by decide), if_neg (by decide)]
  · intro hall
    unfold find_optimal_route
    by_cases hv1 : ¬ gs.validate_coordinates dist slat slon = true
    · rw [if_pos hv1]
    · rw [if_neg hv1]
      by_cases hv2 : ¬ gs.validate_coordinates dist elat elon = true
      · rw [if_pos hv2]
      · rw [if_neg hv2]
        dsimp only
        by_cases he : ((gs.find_nearest_stops dist slat slon 3).isEmpty ||
            (gs.find_nearest_stops dist elat elon 3).isEmpty) = true
        · rw [if_pos he]
        · rw [if_neg he]
          exact tryPairs_noRoute gs dist slat slon elat elon obj fuel _ hterm hall
  · intro r hf
    unfold find_optimal_route at hf
    by_cases hv1 : ¬ gs.validate_coordinates dist slat slon = true
    · rw [if_pos hv1] at hf
      exact absurd hf (by simp)
    · rw [if_neg hv1] at hf
      by_cases hv2 : ¬ gs.validate_coordinates dist elat elon = true
      · rw [if_pos hv2] at hf
        exact absurd hf (by simp)
      · rw [if_neg hv2] at hf
        dsimp only at hf
        by_cases he : ((gs.find_nearest_stops dist slat slon 3).isEmpty ||
            (gs.find_nearest_stops dist elat elon 3).isEmpty) = true
        · rw [if_pos he] at hf
          exact absurd hf (by simp)
        · rw [if_neg he] at hf
          rcases tryPairs_found_aux gs dist slat slon elat elon obj fuel _
              none none r (by intro rb hrb; exact absurd hrb (by simp)) hf with
            ⟨hbest, _⟩ | ⟨l₁, p, l₂, hsplit, hcand, _, hl₁, hl₂⟩
          · exact absurd hbest (by simp)
          · refine ⟨l₁, p, l₂, hsplit, ?_, hl₁, hl₂⟩
            unfold candAt at hcand
            rcases hd : dijkstra_with_transfers gs p.1 p.2 obj fuel
                with _ | _ | _ | r₀
            · rw [hd] at hcand
              exact absurd hcand (by simp)
            · rw [hd] at hcand
              exact absurd hcand (by simp)
            · rw [hd] at hcand
              exact absurd hcand (by simp)
            · rw [hd] at hcand
              dsimp only at hcand
              exact ⟨r₀, rfl, (Option.some.inj hcand).symm⟩

/-- C5 (witness): on the two-stop snapshot `c5Gs` every candidate pair's search
terminates, and the theorem bounds the tried pairs by 9. -/
theorem C5_facade_witness :
    (∀ p ∈ candidatePairs c5Gs dist0 (Flt.ofInt 0) (Flt.ofInt 0) (Flt.ofInt 0)
        (Flt.ofInt 0),
      dijkstra_with_transfers c5Gs p.1 p.2 "time" 50 ≠ DRes.fuelOut ∧
      dijkstra_with_transfers c5Gs p.1 p.2 "time" 50 ≠ DRes.err) ∧
    (candidatePairs c5Gs dist0 (Flt.ofInt 0) (Flt.ofInt 0) (Flt.ofInt 0)
      (Flt.ofInt 0)).length ≤ 9 :=
  ⟨by decide,
    (C5_facade c5Gs dist0 (Flt.ofInt 0) (Flt.ofInt 0) (Flt.ofInt 0) (Flt.ofInt 0)
      "time" 50 (by decide)).1⟩

/-! ## Claim C9 -/

theorem charListLt_trans : ∀ (a b c : List Char), charListLt a b = true →
    charListLt b c = true → charListLt a c = true := by
  intro a
  induction a with
  | nil =>
    intro b c h1 h2
    rcases b with _ | ⟨y, ys⟩
    · simp [charListLt] at h1
    · rcases c with _ | ⟨z, zs⟩
      · simp [charListLt] at h2
      · simp [charListLt]
  | cons x xs ih =>
    intro b c h1 h2
    rcases b with _ | ⟨y, ys⟩
    · simp [charListLt] at h1
    · rcases c with _ | ⟨z, zs⟩
      · simp [charListLt] at h2
      · rw [charListLt] at h1 h2 ⊢
        by_cases hxy : x < y
        · by_cases hyz : y < z
          · rw [if_pos (lt_trans hxy hyz)]
          · rw [if_neg hyz] at h2
            by_cases hzy : z < y
            · rw [if_pos hzy] at h2
              exact absurd h2 (by simp)
            · have hyz' : y = z := le_antisymm (le_of_not_lt hzy) (le_of_not_lt hyz)
              rw [if_pos (by rw [← hyz']; exact hxy)]
        · rw [if_neg hxy] at h1
          by_cases hyx : y < x
          · rw [if_pos hyx] at h1
            exact absurd h1 (by simp)
          · have hxy' : x = y := le_antisymm (le_of_not_lt hyx) (le_of_not_lt hxy)
            rw [if_neg hyx] at h1
            by_cases hyz : y < z
            · rw [if_pos (by rw [hxy']; exact hyz)]
            · rw [if_neg hyz] at h2
              by_cases hzy : z < y
              · rw [if_pos hzy] at h2
                exact absurd h2 (by simp)
              · rw [if_neg hzy] at h2
                have hyz' : y = z := le_antisymm (le_of_not_lt hzy) (le_of_not_lt hyz)
                have hxz : ¬ x < z := by
                  rw [hxy', hyz']
                  exact lt_irrefl z
                have hzx : ¬ z < x := by
                  rw [hxy', hyz']
                  exact lt_irrefl z
                rw [if_neg hxz, if_neg hzx]
                exact ih ys zs h1 h2

theorem charListLt_connex : ∀ (a b : List Char), charListLt a b = false →
    charListLt b a = false → a = b := by
  intro a
  induction a with
  | nil =>
    intro b h1 _
    rcases b with _ | ⟨y, ys⟩
    · rfl
    · simp [charListLt] at h1
  | cons x xs ih =>
    intro b h1 h2
    rcases b with _ | ⟨y, ys⟩
    · simp [charListLt] at h2
    · rw [charListLt] at h1 h2
      by_cases hxy : x < y
      · rw [if_pos hxy] at h1
        exact absurd h1 (by simp)
      · rw [if_neg hxy] at h1
        by_cases hyx : y < x
        · rw [if_pos hyx] at h2
          exact absurd h2 (by simp)
        · rw [if_neg hyx] at h1
          rw [if_neg hyx, if_neg hxy] at h2
          have hxy' : x = y := le_antisymm (le_of_not_lt hyx) (le_of_not_lt hxy)
          rw [hxy', ih ys h1 h2]

theorem tupLeB_iff (a b : Flt × String × String) : tupLeB a b = true ↔
    (a.1.toRat < b.1.toRat ∨ (a.1.toRat = b.1.toRat ∧
      (charListLt a.2.1.data b.2.1.data = true ∨ (a.2.1 = b.2.1 ∧
        (charListLt a.2.2.data b.2.2.data = true ∨ a.2.2 = b.2.2))))) := by
  unfold tupLeB
  simp only [Bool.or_eq_true, Bool.and_eq_true, Flt.blt_iff, Flt.beqv_iff,
    beq_iff_eq]

theorem tupLe_total : ∀ a b : Flt × String × String, TupLe a b ∨ TupLe b a := by
  intro a b
  unfold TupLe
  rw [tupLeB_iff, tupLeB_iff]
  rcases lt_trichotomy a.1.toRat b.1.toRat with h | h | h
  · exact Or.inl (Or.inl h)
  · by_cases hs1 : charListLt a.2.1.data b.2.1.data = true
    · exact Or.inl (Or.inr ⟨h, Or.inl hs1⟩)
    · by_cases hs2 : charListLt b.2.1.data a.2.1.data = true
      · exact Or.inr (Or.inr ⟨h.symm, Or.inl hs2⟩)
      · have hseq : a.2.1 = b.2.1 := String.ext
          (charListLt_connex _ _ (Bool.eq_false_iff.mpr hs1)
            (Bool.eq_false_iff.mpr hs2))
        by_cases hn1 : charListLt a.2.2.data b.2.2.data = true
        · exact Or.inl (Or.inr ⟨h, Or.inr ⟨hseq, Or.inl hn1⟩⟩)
        · by_cases hn2 : charListLt b.2.2.data a.2.2.data = true
          · exact Or.inr (Or.inr ⟨h.symm, Or.inr ⟨hseq.symm, Or.inl hn2⟩⟩)
          · have hneq : a.2.2 = b.2.2 := String.ext
              (charListLt_connex _ _ (Bool.eq_false_iff.mpr hn1)
                (Bool.eq_false_iff.mpr hn2))
            exact Or.inl (Or.inr ⟨h, Or.inr ⟨hseq, Or.inr hneq⟩⟩)
  · exact Or.inr (Or.inl h)

theorem tupLe_trans : ∀ a b c : Flt × String × String,
    TupLe a b → TupLe b c → TupLe a c := by
  intro a b c hab hbc
  unfold TupLe at hab hbc ⊢
  rw [tupLeB_iff] at hab hbc ⊢
  rcases hab with h1 | ⟨he1, hs1⟩
  · rcases hbc with h2 | ⟨he2, _⟩
    · exact Or.inl (lt_trans h1 h2)
    · exact Or.inl (by rw [← he2]; exact h1)
  · rcases hbc with h2 | ⟨he2, hs2⟩
    · exact Or.inl (by rw [he1]; exact h2)
    · refine Or.inr ⟨he1.trans he2, ?_⟩
      rcases hs1 with hl1 | ⟨hq1, hn1⟩
      · rcases hs2 with hl2 | ⟨hq2, _⟩
        · exact Or.inl (charListLt_trans _ _ _ hl1 hl2)
        · exact Or.inl (by rw [← hq2]; exact hl1)
      · rcases hs2 with hl2 | ⟨hq2, hn2⟩
        · exact Or.inl (by rw [hq1]; exact hl2)
        · refine Or.inr ⟨hq1.trans hq2, ?_⟩
          rcases hn1 with hm1 | hm1
          · rcases hn2 with hm2 | hm2
            · exact Or.inl (charListLt_trans _ _ _ hm1 hm2)
            · exact Or.inl (by rw [← hm2]; exact hm1)
          · rcases hn2 with hm2 | hm2
            · exact Or.inl (by rw [hm1]; exact hm2)
            · exact Or.inr (hm1.trans hm2)

/-- C9 (counterexample): the original claim is false on ties.  In `c9Gs` the
cache lists `B2` before `B1` and both stops are at the query point, yet the
result lists `B1` first: the sort key is the tuple `(distance, stop_id, name)`,
so equal distances are tied-broken by ascending stop id, not by stable input
order. -/
theorem C9_counterexample :
    c9Gs.stops_cache.map Prod.fst = ["B2", "B1"] ∧
    c9Gs.find_nearest_stops dist0 (Flt.ofInt 0) (Flt.ofInt 0) 2 =
      [("B1", Flt.ofInt 0), ("B2", Flt.ofInt 0)] := by
  exact ⟨by decide, by decide⟩

/-- C9 (amended): `find_nearest_stops` measures every cached stop, keeps
exactly those within the configured maximum walking distance, sorts ascending
by distance with ties broken by ascending stop id (then name) — not by input
order — and returns at most `limit` `(stopId, distanceKm)` pairs; every
within-range stop either appears or is beaten (weakly) by all `limit` returned
entries. -/
theorem C9_nearest (gs : GraphService) (dist : DistFn) (lat lon : Flt)
    (limit : Nat) :
    (gs.find_nearest_stops dist lat lon limit).length ≤ limit ∧
    (∀ pr ∈ gs.find_nearest_stops dist lat lon limit,
      ∃ st, (pr.1, st) ∈ gs.stops_cache ∧
        pr.2 = dist (lat, lon) (st.location.coords.2, st.location.coords.1) ∧
        pr.2.toRat ≤ (Settings.MAX_WALKING_DISTANCE_KM).toRat) ∧
    (gs.find_nearest_stops dist lat lon limit).Pairwise NearLe ∧
    (∀ p ∈ gs.stops_cache,
      (dist (lat, lon) (p.2.location.coords.2, p.2.location.coords.1)).toRat ≤
        (Settings.MAX_WALKING_DISTANCE_KM).toRat →
      (p.1, dist (lat, lon) (p.2.location.coords.2, p.2.location.coords.1)) ∈
        gs.find_nearest_stops dist lat lon limit ∨
      ((gs.find_nearest_stops dist lat lon limit).length = limit ∧
       ∀ q ∈ gs.find_nearest_stops dist lat lon limit,
         NearLe q (p.1, dist (lat, lon)
           (p.2.location.coords.2, p.2.location.coords.1)))) := by
  haveI hto : IsTotal (Flt × String × String) TupLe := ⟨tupLe_total⟩
  haveI htr : IsTrans (Flt × String × String) TupLe := ⟨tupLe_trans⟩
  refine ⟨find_nearest_stops_length_le gs dist lat lon limit, ?_, ?_, ?_⟩
  · intro pr hpr
    unfold GraphService.find_nearest_stops at hpr
    dsimp only at hpr
    obtain ⟨tp, htake, hproj⟩ := List.mem_map.mp hpr
    have htp' := List.mem_of_mem_take htake
    rw [(List.perm_insertionSort TupLe _).mem_iff] at htp'
    obtain ⟨p, hp, hfp⟩ := List.mem_filterMap.mp htp'
    try dsimp only at hfp
    split at hfp
    · rename_i hc
      have htp : tp = (dist (lat, lon)
          (p.2.location.coords.2, p.2.location.coords.1), p.1, p.2.name) :=
        (Option.some.inj hfp).symm
      refine ⟨p.2, ?_, ?_, ?_⟩
      · rw [← hproj, htp]
        exact hp
      · rw [← hproj, htp]
      · rw [← hproj, htp]
        exact Flt.ble_iff.mp hc
    · exact absurd hfp (by simp)
  · unfold GraphService.find_nearest_stops
    dsimp only
    refine List.pairwise_map.mpr ?_
    have hpw : List.Pairwise TupLe (List.insertionSort TupLe
        (gs.stops_cache.filterMap (fun p =>
          if Flt.ble (dist (lat, lon) (p.2.location.coords.2, p.2.location.coords.1))
              Settings.MAX_WALKING_DISTANCE_KM = true then
            some (dist (lat, lon) (p.2.location.coords.2, p.2.location.coords.1),
              p.1, p.2.name)
          else none))) := List.sorted_insertionSort TupLe _
    refine (hpw.sublist (List.take_sublist limit _)).imp ?_
    intro a b hab
    rcases (tupLeB_iff a b).mp hab with h | ⟨he, hs⟩
    · exact Or.inl h
    · refine Or.inr ⟨he, ?_⟩
      rcases hs with h | ⟨h, _⟩
      · exact Or.inl h
      · exact Or.inr h
  · intro p hp hble
    unfold GraphService.find_nearest_stops
    dsimp only
    have htp : (dist (lat, lon) (p.2.location.coords.2, p.2.location.coords.1),
        p.1, p.2.name) ∈ gs.stops_cache.filterMap (fun p =>
          if Flt.ble (dist (lat, lon) (p.2.location.coords.2, p.2.location.coords.1))
              Settings.MAX_WALKING_DISTANCE_KM = true then
            some (dist (lat, lon) (p.2.location.coords.2, p.2.location.coords.1),
              p.1, p.2.name)
          else none) := by
      refine List.mem_filterMap.mpr ⟨p, hp, ?_⟩
      dsimp only
      rw [if_pos (Flt.ble_iff.mpr hble)]
    have hsort : (dist (lat, lon) (p.2.location.coords.2, p.2.location.coords.1),
        p.1, p.2.name) ∈ List.insertionSort TupLe (gs.stops_cache.filterMap (fun p =>
          if Flt.ble (dist (lat, lon) (p.2.location.coords.2, p.2.location.coords.1))
              Settings.MAX_WALKING_DISTANCE_KM = true then
            some (dist (lat, lon) (p.2.location.coords.2, p.2.location.coords.1),
              p.1, p.2.name)
          else none)) :=
      (List.perm_insertionSort TupLe _).mem_iff.mpr htp
    rw [← List.take_append_drop limit (List.insertionSort TupLe _)] at hsort
    rcases List.mem_append.mp hsort with hin | hin
    · exact Or.inl (List.mem_map.mpr ⟨_, hin, rfl⟩)
    · right
      have hpw : List.Pairwise TupLe (List.insertionSort TupLe
          (gs.stops_cache.filterMap (fun p =>
            if Flt.ble (dist (lat, lon) (p.2.location.coords.2, p.2.location.coords.1))
                Settings.MAX_WALKING_DISTANCE_KM = true then
              some (dist (lat, lon) (p.2.location.coords.2, p.2.location.coords.1),
                p.1, p.2.name)
            else none))) := List.sorted_insertionSort TupLe _
      rw [← List.take_append_drop limit (List.insertionSort TupLe _)] at hpw
      have hcross := (List.pairwise_append.mp hpw).2.2
      constructor
      · rw [List.length_map, List.length_take]
        by_cases hll : (List.insertionSort TupLe (gs.stops_cache.filterMap (fun p =>
            if Flt.ble (dist (lat, lon) (p.2.location.coords.2, p.2.location.coords.1))
                Settings.MAX_WALKING_DISTANCE_KM = true then
              some (dist (lat, lon) (p.2.location.coords.2, p.2.location.coords.1),
                p.1, p.2.name)
            else none))).length ≤ limit
        · rw [List.drop_eq_nil_of_le hll] at hin
          exact absurd hin (by simp)
        · exact min_eq_left (le_of_not_le hll)
      · intro q hq
        obtain ⟨y, hy, hqy⟩ := List.mem_map.mp hq
        have hab := hcross y hy _ hin
        rw [← hqy]
        rcases (tupLeB_iff y _).mp hab with h | ⟨he, hs⟩
        · exact Or.inl h
        · refine Or.inr ⟨he, ?_⟩
          rcases hs with h | ⟨h, _⟩
          · exact Or.inl h
          · exact Or.inr h

/-- C9 (witness): the amended theorem instantiated on the tie snapshot. -/
theorem C9_nearest_witness :
    (c9Gs.find_nearest_stops dist0 (Flt.ofInt 0) (Flt.ofInt 0) 2).length ≤ 2 ∧
    (c9Gs.find_nearest_stops dist0 (Flt.ofInt 0) (Flt.ofInt 0) 2).Pairwise NearLe :=
  ⟨(C9_nearest c9Gs dist0 (Flt.ofInt 0) (Flt.ofInt 0) 2).1,
    (C9_nearest c9Gs dist0 (Flt.ofInt 0) (Flt.ofInt 0) 2).2.2.1⟩
